import Mathlib

/-!
Verification development for the generic multi-check QC execution engine of
the marine_qc repository (src/marine_qc/multiple_checks.py).

The engine is shallowly embedded: pandas DataFrames become `Table` (an ordered
row-identifier index, an ordered column-name list, and a value function),
pandas Series become the `PData.ser` case, Python callables become `PyFunc`
records carrying their introspectable signature and their behaviour, Python
exceptions become the `QCError` sum returned through `Except`, and Python
dicts (which iterate in insertion order) become association lists.

Flags are Python ints (passed=0, failed=1, untestable=2, untested=3 from
auxiliary.py), modelled as `Int`.
-/

namespace MarineQC

/-- QC flag values, as ints (auxiliary.py). -/
abbrev Flag := Int

def passed : Flag := 0

def failed : Flag := 1

def untestable : Flag := 2

def untested : Flag := 3

/-- Row identifiers (a pandas index label). -/
abbrev RowId := Nat

/-- Scalar data values stored in tables. -/
abbrev Val := Int

/-- Python runtime values that flow through argument resolution and into
check callables: scalars, strings, positional lists, pandas Series aligned
to the full table index (by label), or None. -/
inductive PyVal where
  | int (n : Int)
  | str (s : String)
  | list (xs : List Int)
  | series (f : RowId → Val)
  | pyNone

/-- Kind of a Python function parameter, as reported by inspect.signature. -/
inductive ParamKind where
  | posOnly
  | posOrKw
  | varPos
  | kwOnly
  | varKw
deriving DecidableEq, BEq

/-- One entry of inspect.signature(func).parameters: the parameter name is
the mapping key (a variadic parameter appears under its plain name). -/
structure PyParam where
  name : String
  kind : ParamKind
  hasDefault : Bool

/-- A Python callable: its dunder name, its signature parameters in order,
the reserved keyword names contributed by its decorator handlers
(DECORATOR_KWARGS walked over the wrapper chain), and its behaviour when
called with positional and keyword arguments. -/
structure PyFunc where
  fname : String
  params : List PyParam
  reserved : List String
  call : List PyVal → List (String × PyVal) → PyVal

/-- A pandas DataFrame: ordered row index, ordered column names, cell values. -/
structure Table where
  index : List RowId
  cols : List String
  val : String → RowId → Val

/-- The data argument of the resolution helpers: a Series (with its name,
index and values) or a DataFrame. -/
inductive PData where
  | ser (name : String) (index : List RowId) (vals : RowId → Val)
  | frame (t : Table)

/-- One configuration entry of qc_dict or preproc_dict: the optional "func"
field, the optional "names" mapping (parameter name to column name, in
insertion order), the "arguments" mapping, and the "inputs" list. -/
structure Descriptor where
  func : Option String
  names : Option (List (String × String))
  arguments : List (String × PyVal)
  inputs : List PyVal

/-- Python exceptions raised by the engine, as structured error values.
The Python class of each case is noted in its name or here:
invalidReturnMethod and invalidParameter and funcNotSpecified and
invalidKeyword are ValueError, unknownColumn and funcNotDefined are
NameError, tooManyPositional and missingRequired are TypeError,
keyErr is KeyError, idxErr is IndexError, lengthMismatch and badReturn
stand for the pandas alignment failures. -/
inductive QCError where
  | invalidReturnMethod
  | invalidParameter (param : String) (funcName : String)
  | unknownColumn (cname : String)
  | funcNotDefined (fname : String)
  | funcNotSpecified
  | tooManyPositional (funcName : String)
  | invalidKeyword (key : String) (funcName : String)
  | missingRequired (param : String) (funcName : String)
  | keyErr (key : String)
  | idxErr
  | lengthMismatch
  | badReturn
deriving DecidableEq

/-- Association-list lookup, first match wins (Python dict lookup). -/
def lookupAssoc {α : Type} (l : List (String × α)) (k : String) : Option α :=
  match l.find? (fun kv => kv.1 == k) with
  | some kv => some kv.2
  | none => none

/-- Python dict merge of two keyword dictionaries: keys of the first keep
their position but take the second dictionary's value when present there;
keys only in the second are appended in order. -/
def mergeKw (a b : List (String × PyVal)) : List (String × PyVal) :=
  a.map (fun kv =>
    match lookupAssoc b kv.1 with
    | some v => (kv.1, v)
    | none => kv) ++
  b.filter (fun kv => !(a.any (fun kv2 => kv2.1 == kv.1)))

/-- The is_func_param helper: True when param names a parameter of func, or
when the signature contains any parameter literally named kwargs (of any
kind), since the source tests membership of the name "kwargs" in
sig.parameters. -/
def isFuncParam (f : PyFunc) (param : String) : Bool :=
  if f.params.any (fun q => q.name == "kwargs") then true
  else f.params.any (fun q => q.name == param)

/-- The is_in_data helper: a Series is tested by equality of its name with
the requested name, a DataFrame by column membership. -/
def isInData (name : String) (data : PData) : Bool :=
  match data with
  | .ser n _ _ => n == name
  | .frame t => t.cols.contains name

/-- Python data lookup by name: a DataFrame column becomes a Series over the
table index. Engine-reachable calls always pass a DataFrame. -/
def getItem (data : PData) (cname : String) : PyVal :=
  match data with
  | .frame t => .series (t.val cname)
  | .ser _ _ vals => .series vals

/-- Loop body of get_requests_from_params: for each (param, column) pair in
order, raise ValueError when param is not a parameter of func, raise
NameError naming the column when it is absent from data, and otherwise
extract the column. -/
def getRequestsLoop (f : PyFunc) (data : PData) :
    List (String × String) → Except QCError (List (String × PyVal))
  | [] => .ok []
  | (param, cname) :: rest =>
    if isFuncParam f param = false then
      .error (.invalidParameter param f.fname)
    else if isInData cname data = false then
      .error (.unknownColumn cname)
    else
      match getRequestsLoop f data rest with
      | .error e => .error e
      | .ok reqs => .ok ((param, getItem data cname) :: reqs)

/-- The get_requests_from_params helper: an absent names mapping yields an
empty request dictionary. -/
def getRequestsFromParams (params : Option (List (String × String)))
    (f : PyFunc) (data : PData) : Except QCError (List (String × PyVal)) :=
  match params with
  | none => .ok []
  | some l => getRequestsLoop f data l

/-- The get_preprocessed_args helper: argument values equal to the
placeholder string are replaced by the preprocessed value of the same key,
raising KeyError when that key was never preprocessed. -/
def getPreprocessedArgs (arguments : List (String × PyVal))
    (preprocessed : List (String × PyVal)) :
    Except QCError (List (String × PyVal)) :=
  match arguments with
  | [] => .ok []
  | (k, v) :: rest =>
    match
      (match v with
       | .str s =>
         if s == "__preprocessed__" then
           match lookupAssoc preprocessed k with
           | some w => Except.ok w
           | none => Except.error (QCError.keyErr k)
         else Except.ok v
       | _ => Except.ok v) with
    | .error e => .error e
    | .ok v2 =>
      match getPreprocessedArgs rest preprocessed with
      | .error e => .error e
      | .ok args => .ok ((k, v2) :: args)

/-- The validate_args helper: rejects more positional arguments than the
positional parameters unless the callable has a variadic positional
parameter, rejects the first keyword that is neither a declared parameter
nor a reserved decorator keyword when no variadic keyword parameter exists,
and rejects the first required parameter missing from both the positionally
bound names and the keywords. -/
def validateArgs (f : PyFunc) (args : List PyVal)
    (kwargs : List (String × PyVal)) : Except QCError Unit :=
  let positionalParams := f.params.filter
    (fun p => p.kind == ParamKind.posOnly || p.kind == ParamKind.posOrKw)
  let hasVarPos := f.params.any (fun p => p.kind == ParamKind.varPos)
  if args.length > positionalParams.length && !hasVarPos then
    .error (.tooManyPositional f.fname)
  else
    let bound := (positionalParams.take args.length).map PyParam.name
    let hasVarKw := f.params.any (fun p => p.kind == ParamKind.varKw)
    match kwargs.find? (fun kv =>
        !(f.params.any (fun p => p.name == kv.1)) &&
        !(f.reserved.contains kv.1) && !hasVarKw) with
    | some kv => .error (.invalidKeyword kv.1 f.fname)
    | none =>
      match f.params.find? (fun p =>
          !p.hasDefault &&
          (p.kind == ParamKind.posOnly || p.kind == ParamKind.posOrKw ||
            p.kind == ParamKind.kwOnly) &&
          !(kwargs.any (fun kv => kv.1 == p.name)) &&
          !(bound.contains p.name)) with
      | some p => .error (.missingRequired p.name f.fname)
      | none => .ok ()

/-- The get_function lookup over the module globals, modelled as an explicit
registry; an unknown or non-callable name is a NameError. -/
def getFunction (registry : List (String × PyFunc)) (name : String) :
    Except QCError PyFunc :=
  match lookupAssoc registry name with
  | some f => .ok f
  | none => .error (.funcNotDefined name)

/-- Presentation of one resolved argument to a callable expecting the rows
idx: a Series argument is presented by its values over those rows in order
(a Python callable receives the Series object itself; the model's calling
convention hands over its value sequence), anything else passes through. -/
def materialize (idx : List RowId) (v : PyVal) : PyVal :=
  match v with
  | .series f => .list (idx.map f)
  | v => v

/-- Materialization of a whole keyword dictionary for a call over rows idx. -/
def callKw (idx : List RowId) (kw : List (String × PyVal)) :
    List (String × PyVal) :=
  kw.map (fun kv => (kv.1, materialize idx kv.2))

/-- The row index of the data (pandas .index). -/
def indexOf (data : PData) : List RowId :=
  match data with
  | .ser _ idx _ => idx
  | .frame t => t.index

/-- The prepare_preprocessed_vars loop: for each configured variable in
order, resolve the function, resolve the column requests, validate the call
against the signature, and invoke the function on inputs, requests and
arguments (the full, unsliced columns), collecting the derived variables in
order. -/
def preparePreprocessedVars (registry : List (String × PyFunc))
    (data : PData) :
    List (String × Descriptor) → Except QCError (List (String × PyVal))
  | [] => .ok []
  | (varName, desc) :: rest =>
    match desc.func with
    | none => .error .funcNotSpecified
    | some fn =>
      match getFunction registry fn with
      | .error e => .error e
      | .ok f =>
        match getRequestsFromParams desc.names f data with
        | .error e => .error e
        | .ok requests =>
          match validateArgs f desc.inputs (mergeKw requests desc.arguments) with
          | .error e => .error e
          | .ok _ =>
            match preparePreprocessedVars registry data rest with
            | .error e => .error e
            | .ok pre =>
              .ok ((varName,
                f.call desc.inputs
                  (callKw (indexOf data) (mergeKw requests desc.arguments))) :: pre)

/-- Resolved inputs of one QC check, as stored in qc_inputs by
prepare_qc_functions: the user-chosen check name, the resolved callable,
the column-sourced request Series, and the literal or preprocessed keyword
arguments. -/
structure QCInput where
  name : String
  func : PyFunc
  requests : List (String × PyVal)
  kwargs : List (String × PyVal)

/-- The prepare_qc_functions loop: for each configured check in order,
resolve the function, the column requests and the placeholder-substituted
arguments, validate the keyword call, and record the check inputs. -/
def prepareQcFunctions (registry : List (String × PyFunc))
    (preprocessed : List (String × PyVal)) (data : PData) :
    List (String × Descriptor) → Except QCError (List QCInput)
  | [] => .ok []
  | (qcName, desc) :: rest =>
    match desc.func with
    | none => .error .funcNotSpecified
    | some fn =>
      match getFunction registry fn with
      | .error e => .error e
      | .ok f =>
        match getRequestsFromParams desc.names f data with
        | .error e => .error e
        | .ok requests =>
          match getPreprocessedArgs desc.arguments preprocessed with
          | .error e => .error e
          | .ok kwargs =>
            match validateArgs f [] (mergeKw requests kwargs) with
            | .error e => .error e
            | .ok _ =>
              match prepareQcFunctions registry preprocessed data rest with
              | .error e => .error e
              | .ok qcs => .ok (⟨qcName, f, requests, kwargs⟩ :: qcs)

/-- One engine invocation of a check callable: every Series request and
keyword argument is sliced to the whole group, and the callable is called
with the merged keyword dictionary. -/
def invokeOnGroup (qc : QCInput) (gIdx : List RowId) : PyVal :=
  qc.func.call []
    (mergeKw (callKw gIdx qc.requests) (callKw gIdx qc.kwargs))

/-- Label lookup in a list of (row, flag) pairs, first match wins. -/
def lookupFlag (pairs : List (RowId × Flag)) (r : RowId) : Flag :=
  match pairs.find? (fun p => p.1 == r) with
  | some p => p.2
  | none => untested

/-- Alignment of a check callable return value to the group rows, as done by
constructing a pandas Series over the group index: a scalar broadcasts, a
list must have the group length and is aligned positionally, a Series is
aligned by label; non-numeric returns are outside the check-callable
contract. -/
def alignRet (ret : PyVal) (gIdx : List RowId) : Except QCError (RowId → Flag) :=
  match ret with
  | .int n => .ok (fun _ => n)
  | .list xs =>
    if xs.length == gIdx.length then .ok (lookupFlag (gIdx.zip xs))
    else .error .lengthMismatch
  | .series f => .ok f
  | _ => .error .badReturn

/-- The flag matrix filled row-by-row: a total function, read only at the
index rows and check-name columns of the enclosing matrix. -/
abbrev Results := RowId → String → Flag

/-- One check of the engine loop body (the apply_qc_to_masked_rows call and
the surrounding writes of run_qc_engine): invoke the check on the whole
group, align the result, write the aligned flags at currently masked rows
of the group (untested elsewhere in the group) into the check's column, and
shrink the group mask and the global mask according to the return method.
Returns the new group mask, global mask and results. -/
def runCheckStep (rm : String) (gIdx : List RowId) (qc : QCInput)
    (gm mask : RowId → Bool) (res : Results) :
    Except QCError ((RowId → Bool) × (RowId → Bool) × Results) :=
  match alignRet (invokeOnGroup qc gIdx) gIdx with
  | .error e => .error e
  | .ok pf =>
    let fullFn : RowId → Flag := fun r => if gm r then pf r else untested
    let res' : Results := fun r c =>
      if gIdx.contains r && c == qc.name then fullFn r else res r c
    if rm == "failed" then
      .ok (fun r => gm r && !(fullFn r == failed),
        fun r => if gIdx.contains r then mask r && !(fullFn r == failed) else mask r,
        res')
    else if rm == "passed" then
      .ok (fun r => gm r && !(fullFn r == passed),
        fun r => if gIdx.contains r then mask r && !(fullFn r == passed) else mask r,
        res')
    else
      .ok (gm, mask, res')

/-- The check loop of run_qc_engine for one group: before each check, stop
early when no group row is still masked; otherwise run the check step. -/
def runGroupChecks (rm : String) (gIdx : List RowId) :
    List QCInput → (RowId → Bool) → (RowId → Bool) → Results →
    Except QCError ((RowId → Bool) × Results)
  | [], _, mask, res => .ok (mask, res)
  | qc :: cs, gm, mask, res =>
    if gIdx.any gm = false then .ok (mask, res)
    else
      match runCheckStep rm gIdx qc gm mask res with
      | .error e => .error e
      | .ok (gm', mask', res') => runGroupChecks rm gIdx cs gm' mask' res'

/-- The group loop of run_qc_engine: each group starts from a copy of the
global mask and threads the updated mask and results to the next group. -/
def runGroupsLoop (rm : String) (qcInputs : List QCInput) :
    List (List RowId) → (RowId → Bool) → Results → Except QCError Results
  | [], _, res => .ok res
  | g :: gs, mask, res =>
    match runGroupChecks rm g qcInputs mask mask res with
    | .error e => .error e
    | .ok (mask', res') => runGroupsLoop rm qcInputs gs mask' res'

/-- The returned flag matrix: the data index as rows, the check names as
columns in configuration order, and the cell contents. -/
structure FlagMatrix where
  index : List RowId
  cols : List String
  entry : Results

/-- The run_qc_engine entry: all-true initial mask, all-untested initial
results, then the group loop, packaged with the data index and the check
names. -/
def runQcEngine (dataIndex : List RowId) (qcInputs : List QCInput)
    (groups : List (List RowId)) (rm : String) : Except QCError FlagMatrix :=
  match runGroupsLoop rm qcInputs groups (fun _ => true) (fun _ _ => untested) with
  | .error e => .error e
  | .ok res => .ok ⟨dataIndex, qcInputs.map QCInput.name, res⟩

/-- The groupby argument of the internal entry point: None, grouping column
names, or a pre-built groupby object given by its list of group row
subsets. -/
inductive GroupBy where
  | noneG
  | byCols (cols : List String)
  | prebuilt (gs : List (List RowId))

/-- First occurrence of each element, in first-seen order (the key order of
a pandas groupby with sort=False). -/
def firstSeen {α : Type} [DecidableEq α] : List α → List α
  | [] => []
  | a :: as => a :: (firstSeen as).filter (fun b => decide (b ≠ a))

/-- The grouping key of a row for a list of grouping columns. -/
def keyOf (t : Table) (cols : List String) (r : RowId) : List Val :=
  cols.map (fun c => t.val c r)

/-- Grouping by column values with sort=False: one group per distinct key in
first-seen order, rows kept in their original relative order. -/
def groupByCols (t : Table) (cols : List String) : List (List RowId) :=
  (firstSeen (t.index.map (keyOf t cols))).map
    (fun k => t.index.filter (fun r => keyOf t cols r == k))

/-- Normalization of a pre-built groupby: each group is intersected with the
row identifiers present in the data, and empty intersections are dropped
silently. -/
def normalizePrebuilt (t : Table) (gs : List (List RowId)) : List (List RowId) :=
  (gs.map (fun g => g.filter (fun r => t.index.contains r))).filter
    (fun g => !g.isEmpty)

/-- The group_iterator and normalize_groupby pair: None yields the whole
table as one group; grouping columns must exist in the table (a pandas
KeyError otherwise); a pre-built groupby is normalized. -/
def groupsOf (t : Table) (gb : GroupBy) : Except QCError (List (List RowId)) :=
  match gb with
  | .noneG => .ok [t.index]
  | .byCols cols =>
    match cols.find? (fun c => !(t.cols.contains c)) with
    | some c => .error (.keyErr c)
    | none => .ok (groupByCols t cols)
  | .prebuilt gs => .ok (normalizePrebuilt t gs)

/-- Series.to_frame conversion: an N-row single-column table whose one
column carries the Series name and values. -/
def toFrame (data : PData) : Table :=
  match data with
  | .frame t => t
  | .ser n idx vals => ⟨idx, [n], fun _ r => vals r⟩

/-- The value returned by an entry point: a flag matrix, or (for a Series
input) the first result row as a mapping from check name to flag. -/
inductive QCResult where
  | frame (m : FlagMatrix)
  | row (cols : List String) (entry : String → Flag)

/-- The do_multiple_check internal entry point: validate the return method
first, normalize a Series to a one-column DataFrame, run preprocessing,
resolve the check inputs, build the groups, run the engine, and for a
Series input return the first result row (an IndexError on an empty
index). -/
def doMultipleCheck (registry : List (String × PyFunc)) (data : PData)
    (gb : GroupBy) (qcDict prepDict : Option (List (String × Descriptor)))
    (rm : String) : Except QCError QCResult :=
  if !(rm == "all" || rm == "passed" || rm == "failed") then
    .error .invalidReturnMethod
  else
    match preparePreprocessedVars registry (.frame (toFrame data)) (prepDict.getD []) with
    | .error e => .error e
    | .ok pre =>
      match prepareQcFunctions registry pre (.frame (toFrame data)) (qcDict.getD []) with
      | .error e => .error e
      | .ok qcInputs =>
        match groupsOf (toFrame data) gb with
        | .error e => .error e
        | .ok groups =>
          match runQcEngine (toFrame data).index qcInputs groups rm with
          | .error e => .error e
          | .ok m =>
            match data with
            | .frame _ => .ok (.frame m)
            | .ser _ _ _ =>
              match (toFrame data).index with
              | [] => .error .idxErr
              | r0 :: _ => .ok (.row m.cols (fun c => m.entry r0 c))

/-- The do_multiple_individual_check public entry point: the internal entry
with groupby fixed to None. -/
def doMultipleIndividualCheck (registry : List (String × PyFunc))
    (data : PData) (qcDict prepDict : Option (List (String × Descriptor)))
    (rm : String) : Except QCError QCResult :=
  doMultipleCheck registry data .noneG qcDict prepDict rm

/-- The do_multiple_sequential_check public entry point: the internal entry
with a caller-supplied groupby. -/
def doMultipleSequentialCheck (registry : List (String × PyFunc))
    (data : PData) (gb : GroupBy)
    (qcDict prepDict : Option (List (String × Descriptor)))
    (rm : String) : Except QCError QCResult :=
  doMultipleCheck registry data gb qcDict prepDict rm

/-- The do_multiple_grouped_check public entry point: the internal entry
with groupby fixed to None. -/
def doMultipleGroupedCheck (registry : List (String × PyFunc))
    (data : PData) (qcDict prepDict : Option (List (String × Descriptor)))
    (rm : String) : Except QCError QCResult :=
  doMultipleCheck registry data .noneG qcDict prepDict rm

/-- Flag read out of an entry-point result at a row and check name. -/
def resFlag (res : Except QCError QCResult) (r : RowId) (c : String) : Flag :=
  match res with
  | .ok (.frame m) => m.entry r c
  | .ok (.row _ e) => e c
  | .error _ => (-99 : Int)

/-- The do_hard_limit_check callable restricted to the arguments the test
scenarios use: flags each value failed when outside the closed interval
given by limits. -/
def hardLimitFunc : PyFunc :=
  { fname := "do_hard_limit_check"
    params := [⟨"value", .posOrKw, false⟩, ⟨"limits", .posOrKw, false⟩]
    reserved := []
    call := fun _ kw =>
      match lookupAssoc kw "value", lookupAssoc kw "limits" with
      | some (.list xs), some (.list [lo, hi]) =>
        .list (xs.map (fun v => if lo ≤ v ∧ v ≤ hi then passed else failed))
      | _, _ => .pyNone }

/-- Registry holding the hard-limit check. -/
def wReg : List (String × PyFunc) := [("do_hard_limit_check", hardLimitFunc)]

/-- The scenario table of the specification: value1 = 1,2,3,4 and
value2 = 1,1,2,2 over rows 0..3. -/
def wTable : Table :=
  { index := [0, 1, 2, 3]
    cols := ["value1", "value2"]
    val := fun c r =>
      if c == "value1" then [1, 2, 3, 4].getD r 0
      else if c == "value2" then [1, 1, 2, 2].getD r 0
      else 0 }

/-- The scenario configuration: hard limits 2..3 on each of the two columns,
under check names test1 and test2. -/
def wQcD : List (String × Descriptor) :=
  [("test1", ⟨some "do_hard_limit_check", some [("value", "value1")],
      [("limits", .list [2, 3])], []⟩),
   ("test2", ⟨some "do_hard_limit_check", some [("value", "value2")],
      [("limits", .list [2, 3])], []⟩)]

/-- A two-row table used by the grouping counterexample. -/
def cexTable : Table := ⟨[0, 1], ["x"], fun _ _ => 0⟩

/-- A preprocessing callable summing a column over the whole table. -/
def colsumFunc : PyFunc :=
  { fname := "colsum"
    params := [⟨"vals", .posOrKw, false⟩]
    reserved := []
    call := fun _ kw =>
      match lookupAssoc kw "vals" with
      | some (.list xs) => .int xs.sum
      | _ => .pyNone }

/-- A check callable flagging each value passed when at least the threshold
argument m, failed otherwise. -/
def cmpFunc : PyFunc :=
  { fname := "cmpcheck"
    params := [⟨"value", .posOrKw, false⟩, ⟨"m", .posOrKw, false⟩]
    reserved := []
    call := fun _ kw =>
      match lookupAssoc kw "value", lookupAssoc kw "m" with
      | some (.list xs), some (.int m) =>
        .list (xs.map (fun v => if m ≤ v then passed else failed))
      | _, _ => .pyNone }

/-- Registry for the cross-group leakage counterexample. -/
def leakReg : List (String × PyFunc) :=
  [("colsum", colsumFunc), ("cmpcheck", cmpFunc)]

/-- First leakage table: column v is 0,1 and grouping column g is 0,1. -/
def leakT1 : Table :=
  { index := [0, 1], cols := ["v", "g"]
    val := fun c r =>
      if c == "v" then (if r == 0 then 0 else 1)
      else if c == "g" then (if r == 0 then 0 else 1) else 0 }

/-- Second leakage table: identical to the first except the value of column
v at row 0 (a row of group A) is 5 instead of 0. -/
def leakT2 : Table :=
  { index := [0, 1], cols := ["v", "g"]
    val := fun c r =>
      if c == "v" then (if r == 0 then 5 else 1)
      else if c == "g" then (if r == 0 then 0 else 1) else 0 }

/-- Leakage preprocessing configuration: m is the table-wide sum of v. -/
def leakPrep : List (String × Descriptor) :=
  [("m", ⟨some "colsum", some [("vals", "v")], [], []⟩)]

/-- Leakage check configuration: compare v with the preprocessed m. -/
def leakQc : List (String × Descriptor) :=
  [("c", ⟨some "cmpcheck", some [("value", "v")],
      [("m", .str "__preprocessed__")], []⟩)]

/-- The "all" scenario run on the specification table. -/
def wRunAll : Except QCError QCResult :=
  doMultipleCheck wReg (.frame wTable) .noneG (some wQcD) none "all"

/-- The result value of the "all" scenario run. -/
def wRes : QCResult :=
  match wRunAll with
  | .ok r => r
  | .error _ => .row [] (fun _ => 0)

/-- Series input of the single-check scenario. -/
def wSerData : PData := .ser "value" [0, 1, 2, 3] (fun r => [1, 2, 3, 4].getD r 0)

/-- Configuration of the single-check scenario on the Series column. -/
def wSerQcD : List (String × Descriptor) :=
  [("t", ⟨some "do_hard_limit_check", some [("value", "value")],
      [("limits", .list [2, 3])], []⟩)]

/-- The Series scenario run. -/
def wSerRun : Except QCError QCResult :=
  doMultipleCheck wReg wSerData .noneG (some wSerQcD) none "all"

/-- The result value of the Series scenario run. -/
def wSerRes : QCResult :=
  match wSerRun with
  | .ok r => r
  | .error _ => .frame ⟨[], [], fun _ _ => 0⟩

/-- First row extraction of a frame result (results.iloc at position 0). -/
def ilocZero : QCResult → QCResult
  | .frame m => .row m.cols (fun c => m.entry (m.index.headD 0) c)
  | r => r

/-- Check input used by the step witness: the hard-limit check over a
column Series equal to the row number. -/
def wStepQc : QCInput :=
  ⟨"t", hardLimitFunc, [("value", .series (fun r => (r : Int)))],
    [("limits", .list [2, 3])]⟩

/-- The witness step run: rows 0 and 1, row 1 already unmasked. -/
def wStep : Except QCError ((RowId → Bool) × (RowId → Bool) × Results) :=
  runCheckStep "all" [0, 1] wStepQc (fun r => r == 0) (fun _ => true)
    (fun _ _ => untested)

/-- The state triple produced by the witness step run. -/
def wStepOut : (RowId → Bool) × (RowId → Bool) × Results :=
  match wStep with
  | .ok o => o
  | .error _ => (fun _ => false, fun _ => false, fun _ _ => 0)

/-- Resolved check inputs of the scenario, as stored in qc_inputs. -/
def wQcIn : List QCInput :=
  [⟨"test1", hardLimitFunc, [("value", .series (wTable.val "value1"))],
      [("limits", .list [2, 3])]⟩,
   ⟨"test2", hardLimitFunc, [("value", .series (wTable.val "value2"))],
      [("limits", .list [2, 3])]⟩]

/-- The scenario engine run with the passed short-circuit policy. -/
def wEngineRun : Except QCError FlagMatrix :=
  runQcEngine wTable.index wQcIn [wTable.index] "passed"

/-- The flag matrix of the passed-policy scenario engine run. -/
def wM : FlagMatrix :=
  match wEngineRun with
  | .ok m => m
  | .error _ => ⟨[], [], fun _ _ => 0⟩

/-- Leak-free check configuration: compare v with a literal threshold. -/
def noLeakQc : List (String × Descriptor) :=
  [("c", ⟨some "cmpcheck", some [("value", "v")], [("m", .int 1)], []⟩)]

/-- The leak-free run on the first table. -/
def noLeakRun1 : Except QCError QCResult :=
  doMultipleCheck leakReg (.frame leakT1) (.byCols ["g"]) (some noLeakQc) none "all"

/-- The leak-free run on the second table. -/
def noLeakRun2 : Except QCError QCResult :=
  doMultipleCheck leakReg (.frame leakT2) (.byCols ["g"]) (some noLeakQc) none "all"

/-- Result of the leak-free run on the first table. -/
def noLeakRes1 : QCResult :=
  match noLeakRun1 with
  | .ok r => r
  | .error _ => .row [] (fun _ => 0)

/-- Result of the leak-free run on the second table. -/
def noLeakRes2 : QCResult :=
  match noLeakRun2 with
  | .ok r => r
  | .error _ => .row [] (fun _ => 0)

/-- C6: for every input, qc_dict, preproc_dict and return_method, the
individual and grouped entry points return identical results, and both
equal the sequential entry point called with groupby=None: the three
façades differ only in their default grouping policy, not in mechanics. -/
theorem facades_share_engine :
    ∀ (registry : List (String × PyFunc)) (data : PData)
      (qcDict prepDict : Option (List (String × Descriptor))) (rm : String),
      doMultipleIndividualCheck registry data qcDict prepDict rm =
        doMultipleGroupedCheck registry data qcDict prepDict rm ∧
      doMultipleIndividualCheck registry data qcDict prepDict rm =
        doMultipleSequentialCheck registry data GroupBy.noneG qcDict prepDict rm := by
  intro registry data qcDict prepDict rm
  exact ⟨rfl, rfl⟩

/-- C7: when return_method is not one of all, passed, failed, every entry
point raises the invalid-argument error, whatever the configuration
dictionaries hold (even invalid or absent ones) and before any resolution,
preprocessing or check execution happens. -/
theorem invalid_return_method_first
    (registry : List (String × PyFunc)) (data : PData)
    (qcDict prepDict : Option (List (String × Descriptor))) (rm : String)
    (h1 : rm ≠ "all") (h2 : rm ≠ "passed") (h3 : rm ≠ "failed") :
    doMultipleIndividualCheck registry data qcDict prepDict rm =
      .error .invalidReturnMethod ∧
    (∀ gb, doMultipleSequentialCheck registry data gb qcDict prepDict rm =
      .error .invalidReturnMethod) ∧
    doMultipleGroupedCheck registry data qcDict prepDict rm =
      .error .invalidReturnMethod := by
  have hb : (!(rm == "all" || rm == "passed" || rm == "failed")) = true := by
    simp [h1, h2, h3]
  refine ⟨?_, fun gb => ?_, ?_⟩ <;>
    simp [doMultipleIndividualCheck, doMultipleSequentialCheck,
      doMultipleGroupedCheck, doMultipleCheck, hb]

/-- Witness for C7 at a concrete invalid return method. -/
theorem invalid_return_method_first_witness :
    doMultipleIndividualCheck wReg (.frame wTable) (some wQcD) none "bogus" =
      .error .invalidReturnMethod ∧
    (∀ gb, doMultipleSequentialCheck wReg (.frame wTable) gb (some wQcD) none "bogus" =
      .error .invalidReturnMethod) ∧
    doMultipleGroupedCheck wReg (.frame wTable) (some wQcD) none "bogus" =
      .error .invalidReturnMethod :=
  invalid_return_method_first wReg (.frame wTable) (some wQcD) none "bogus"
    (by decide) (by decide) (by decide)

/-- C9: the accepting-arbitrary-keywords test of the resolver is by
parameter name, not kind: any parameter literally named kwargs makes
is_func_param accept every name (so such a check passes argument
resolution for every binding name), while a callable with no parameter
named kwargs rejects names that are not among its parameter names, even
when its variadic-keyword parameter (under another name) would accept
them at call time. -/
theorem is_func_param_by_name :
    (∀ (f : PyFunc) (p : String),
      f.params.any (fun q => q.name == "kwargs") = true → isFuncParam f p = true) ∧
    (∀ (f : PyFunc) (p : String),
      f.params.any (fun q => q.name == "kwargs") = false →
      f.params.any (fun q => q.name == p) = false → isFuncParam f p = false) ∧
    (∀ (f : PyFunc) (data : PData) (l : List (String × String)) (p fn : String),
      f.params.any (fun q => q.name == "kwargs") = true →
      getRequestsLoop f data l ≠ .error (.invalidParameter p fn)) ∧
    (∀ (f : PyFunc) (data : PData) (p c : String) (rest : List (String × String)),
      f.params.any (fun q => q.name == "kwargs") = false →
      f.params.any (fun q => q.name == p) = false →
      getRequestsLoop f data ((p, c) :: rest) = .error (.invalidParameter p f.fname)) := by
  have part1 : ∀ (f : PyFunc) (p : String),
      f.params.any (fun q => q.name == "kwargs") = true → isFuncParam f p = true := by
    intro f p h
    simp [isFuncParam, h]
  refine ⟨part1, ?_, ?_, ?_⟩
  · intro f p h1 h2
    simp [isFuncParam, h1, h2]
  · intro f data l p fn hkw
    induction l with
    | nil => simp [getRequestsLoop]
    | cons pc rest ih =>
      obtain ⟨p', c'⟩ := pc
      rw [getRequestsLoop, if_neg (by simp [part1 f p' hkw])]
      by_cases hin : isInData c' data = false
      · rw [if_pos hin]
        simp
      · rw [if_neg hin]
        cases hres : getRequestsLoop f data rest with
        | error e =>
          simp only [hres]
          intro hcontra
          injection hcontra with h
          exact ih (hres.trans (congrArg Except.error h))
        | ok reqs => simp [hres]
  · intro f data p c rest h1 h2
    have : isFuncParam f p = false := by simp [isFuncParam, h1, h2]
    simp [getRequestsLoop, this]

/-- Witness for C9 at concrete callables: one with an ordinary positional
parameter named kwargs accepting an arbitrary binding name, one with a
variadic keyword parameter named kw rejecting an unknown name. -/
theorem is_func_param_by_name_witness :
    isFuncParam ⟨"g1", [⟨"kwargs", .posOrKw, false⟩], [], fun _ _ => .pyNone⟩ "zzz" = true ∧
    isFuncParam ⟨"g2", [⟨"kw", .varKw, false⟩], [], fun _ _ => .pyNone⟩ "zzz" = false ∧
    getRequestsLoop ⟨"g2", [⟨"kw", .varKw, false⟩], [], fun _ _ => .pyNone⟩
      (.frame wTable) [("zzz", "value1")] = .error (.invalidParameter "zzz" "g2") := by
  refine ⟨?_, ?_, ?_⟩
  · exact is_func_param_by_name.1 _ "zzz" (by decide)
  · exact is_func_param_by_name.2.1 _ "zzz" (by decide) (by decide)
  · exact is_func_param_by_name.2.2.2 _ (.frame wTable) "zzz" "value1" [] (by decide) (by decide)

/-- A successful request resolution visits every binding and accepts it. -/
theorem getRequestsLoop_ok_valid (f : PyFunc) (data : PData) :
    ∀ (l : List (String × String)) (reqs : List (String × PyVal)),
      getRequestsLoop f data l = .ok reqs →
      ∀ p c, (p, c) ∈ l → isFuncParam f p = true ∧ isInData c data = true := by
  intro l
  induction l with
  | nil =>
    intro reqs _ p c hm
    cases hm
  | cons pc rest ih =>
    obtain ⟨p', c'⟩ := pc
    intro reqs hok p c hm
    rw [getRequestsLoop] at hok
    by_cases hp : isFuncParam f p' = false
    · rw [if_pos hp] at hok
      exact Except.noConfusion hok
    · rw [if_neg hp] at hok
      by_cases hc : isInData c' data = false
      · rw [if_pos hc] at hok
        exact Except.noConfusion hok
      · rw [if_neg hc] at hok
        cases hres : getRequestsLoop f data rest with
        | error e =>
          rw [hres] at hok
          exact Except.noConfusion hok
        | ok reqs' =>
          rw [hres] at hok
          rcases List.mem_cons.mp hm with h | h
          · obtain ⟨h1, h2⟩ := Prod.mk.injEq p c p' c' ▸ h
            subst h1
            subst h2
            exact ⟨by simpa using hp, by simpa using hc⟩
          · exact ih reqs' hres p c h

/-- Inversion of one step of the preprocessing loop. -/
theorem preparePreprocessedVars_cons_inv
    (registry : List (String × PyFunc)) (data : PData) (nm' : String)
    (desc' : Descriptor) (rest : List (String × Descriptor))
    (pre : List (String × PyVal))
    (hok : preparePreprocessedVars registry data ((nm', desc') :: rest) = .ok pre) :
    ∃ fn f reqs pre', desc'.func = some fn ∧ getFunction registry fn = .ok f ∧
      getRequestsFromParams desc'.names f data = .ok reqs ∧
      preparePreprocessedVars registry data rest = .ok pre' := by
  rw [preparePreprocessedVars] at hok
  split at hok
  next => exact Except.noConfusion hok
  next fn hfn =>
    split at hok
    next e hge => exact Except.noConfusion hok
    next f hgf =>
      split at hok
      next e hre => exact Except.noConfusion hok
      next reqs hreq =>
        split at hok
        next e hve => exact Except.noConfusion hok
        next u hval =>
          split at hok
          next e hpe => exact Except.noConfusion hok
          next pre' hpre' =>
            exact ⟨fn, f, reqs, pre', hfn, hgf, hreq, hpre'⟩

/-- Inversion of one step of the check-preparation loop. -/
theorem prepareQcFunctions_cons_inv
    (registry : List (String × PyFunc)) (preprocessed : List (String × PyVal))
    (data : PData) (nm' : String) (desc' : Descriptor)
    (rest : List (String × Descriptor)) (qcs : List QCInput)
    (hok : prepareQcFunctions registry preprocessed data ((nm', desc') :: rest) = .ok qcs) :
    ∃ fn f reqs kwargs qcs', desc'.func = some fn ∧
      getFunction registry fn = .ok f ∧
      getRequestsFromParams desc'.names f data = .ok reqs ∧
      getPreprocessedArgs desc'.arguments preprocessed = .ok kwargs ∧
      prepareQcFunctions registry preprocessed data rest = .ok qcs' ∧
      qcs = ⟨nm', f, reqs, kwargs⟩ :: qcs' := by
  rw [prepareQcFunctions] at hok
  split at hok
  next => exact Except.noConfusion hok
  next fn hfn =>
    split at hok
    next e hge => exact Except.noConfusion hok
    next f hgf =>
      split at hok
      next e hre => exact Except.noConfusion hok
      next reqs hreq =>
        split at hok
        next e hae => exact Except.noConfusion hok
        next kwargs hkw =>
          split at hok
          next e hve => exact Except.noConfusion hok
          next u hval =>
            split at hok
            next e hqe => exact Except.noConfusion hok
            next qcs' hqcs' =>
              injection hok with h2
              exact ⟨fn, f, reqs, kwargs, qcs', hfn, hgf, hreq, hkw, hqcs', h2.symm⟩

/-- Inversion of a successful internal entry-point run. -/
theorem doMultipleCheck_ok_inv
    (registry : List (String × PyFunc)) (data : PData) (gb : GroupBy)
    (qcDict prepDict : Option (List (String × Descriptor))) (rm : String)
    (res : QCResult)
    (h : doMultipleCheck registry data gb qcDict prepDict rm = .ok res) :
    ∃ pre qcIn groups m,
      preparePreprocessedVars registry (.frame (toFrame data)) (prepDict.getD []) = .ok pre ∧
      prepareQcFunctions registry pre (.frame (toFrame data)) (qcDict.getD []) = .ok qcIn ∧
      groupsOf (toFrame data) gb = .ok groups ∧
      runQcEngine (toFrame data).index qcIn groups rm = .ok m ∧
      ((∃ t, data = PData.frame t ∧ res = .frame m) ∨
       (∃ n idx v r0 tl, data = PData.ser n idx v ∧ idx = r0 :: tl ∧
          res = .row m.cols (fun c => m.entry r0 c))) := by
  rw [doMultipleCheck] at h
  split at h
  · exact Except.noConfusion h
  · split at h
    next e h1 => exact Except.noConfusion h
    next pre hpre =>
      split at h
      next e h1 => exact Except.noConfusion h
      next qcIn hqc =>
        split at h
        next e h1 => exact Except.noConfusion h
        next groups hg =>
          split at h
          next e h1 => exact Except.noConfusion h
          next m hm =>
            split at h
            next t =>
              injection h with h2
              exact ⟨pre, qcIn, groups, m, hpre, hqc, hg, hm, .inl ⟨t, rfl, h2.symm⟩⟩
            next n idx v =>
              split at h
              next hnil => exact Except.noConfusion h
              next r0 tl hcons =>
                injection h with h2
                exact ⟨pre, qcIn, groups, m, hpre, hqc, hg, hm,
                  .inr ⟨n, idx, v, r0, tl, rfl, by simpa [toFrame] using hcons, h2.symm⟩⟩

/-- A successful preprocessing preparation accepted every binding of every
descriptor. -/
theorem preparePreprocessedVars_ok_valid
    (registry : List (String × PyFunc)) (data : PData) :
    ∀ (l : List (String × Descriptor)) (pre : List (String × PyVal)),
      preparePreprocessedVars registry data l = .ok pre →
      ∀ nm desc, (nm, desc) ∈ l → ∀ fn, desc.func = some fn →
      ∀ f, getFunction registry fn = .ok f →
      ∀ nl, desc.names = some nl → ∀ p c, (p, c) ∈ nl →
      isFuncParam f p = true ∧ isInData c data = true := by
  intro l
  induction l with
  | nil =>
    intro pre _ nm desc hm
    cases hm
  | cons nd rest ih =>
    obtain ⟨nm', desc'⟩ := nd
    intro pre hok nm desc hm fn hfn f hf nl hnl p c hpc
    obtain ⟨fn0, f0, reqs0, pre', hfn0, hgf0, hreq0, hrest⟩ :=
      preparePreprocessedVars_cons_inv _ _ _ _ _ _ hok
    rcases List.mem_cons.mp hm with h | h
    · obtain ⟨h1, h2⟩ := Prod.mk.injEq nm desc nm' desc' ▸ h
      subst h1
      subst h2
      rw [hfn] at hfn0
      injection hfn0 with hfneq
      subst hfneq
      rw [hf] at hgf0
      injection hgf0 with hfeq
      subst hfeq
      rw [hnl] at hreq0
      exact getRequestsLoop_ok_valid f data nl reqs0 hreq0 p c hpc
    · exact ih pre' hrest nm desc h fn hfn f hf nl hnl p c hpc

/-- A successful check preparation accepted every binding of every
descriptor. -/
theorem prepareQcFunctions_ok_valid
    (registry : List (String × PyFunc)) (preprocessed : List (String × PyVal))
    (data : PData) :
    ∀ (l : List (String × Descriptor)) (qcs : List QCInput),
      prepareQcFunctions registry preprocessed data l = .ok qcs →
      ∀ nm desc, (nm, desc) ∈ l → ∀ fn, desc.func = some fn →
      ∀ f, getFunction registry fn = .ok f →
      ∀ nl, desc.names = some nl → ∀ p c, (p, c) ∈ nl →
      isFuncParam f p = true ∧ isInData c data = true := by
  intro l
  induction l with
  | nil =>
    intro qcs _ nm desc hm
    cases hm
  | cons nd rest ih =>
    obtain ⟨nm', desc'⟩ := nd
    intro qcs hok nm desc hm fn hfn f hf nl hnl p c hpc
    obtain ⟨fn0, f0, reqs0, kwargs0, qcs', hfn0, hgf0, hreq0, hkw0, hrest, hshape⟩ :=
      prepareQcFunctions_cons_inv _ _ _ _ _ _ _ hok
    rcases List.mem_cons.mp hm with h | h
    · obtain ⟨h1, h2⟩ := Prod.mk.injEq nm desc nm' desc' ▸ h
      subst h1
      subst h2
      rw [hfn] at hfn0
      injection hfn0 with hfneq
      subst hfneq
      rw [hf] at hgf0
      injection hgf0 with hfeq
      subst hfeq
      rw [hnl] at hreq0
      exact getRequestsLoop_ok_valid f data nl reqs0 hreq0 p c hpc
    · exact ih qcs' hrest nm desc h fn hfn f hf nl hnl p c hpc

/-- C8: argument resolution of a names mapping raises the
invalid-parameter ValueError at the first binding whose parameter the
callable does not accept, raises the NameError naming the missing column at
the first binding whose column is absent from the data, tests column
membership of a Series input by equality with the Series name, and any such
failure makes the whole invocation abort: a successful entry-point run has
validated every binding of every descriptor, in both the qc_dict and the
preproc_dict positions. -/
theorem binding_errors :
    (∀ (f : PyFunc) (data : PData) (p c : String) (rest : List (String × String)),
      isFuncParam f p = false →
      getRequestsLoop f data ((p, c) :: rest) =
        .error (.invalidParameter p f.fname)) ∧
    (∀ (f : PyFunc) (data : PData) (p c : String) (rest : List (String × String)),
      isFuncParam f p = true → isInData c data = false →
      getRequestsLoop f data ((p, c) :: rest) = .error (.unknownColumn c)) ∧
    (∀ (n : String) (idx : List RowId) (v : RowId → Val) (c : String),
      isInData c (.ser n idx v) = (n == c)) ∧
    (∀ registry (data : PData) gb qcDict prepDict rm res,
      doMultipleCheck registry data gb qcDict prepDict rm = .ok res →
      ∀ nm desc, (nm, desc) ∈ (qcDict.getD [] ++ prepDict.getD []) →
      ∀ fn, desc.func = some fn → ∀ f, getFunction registry fn = .ok f →
      ∀ nl, desc.names = some nl → ∀ p c, (p, c) ∈ nl →
      isFuncParam f p = true ∧ isInData c (.frame (toFrame data)) = true) := by
  refine ⟨?_, ?_, ?_, ?_⟩
  · intro f data p c rest h
    rw [getRequestsLoop, if_pos h]
  · intro f data p c rest h1 h2
    rw [getRequestsLoop, if_neg (by simp [h1]), if_pos h2]
  · intro n idx v c
    rfl
  · intro registry data gb qcDict prepDict rm res h nm desc hm fn hfn f hf nl hnl p c hpc
    obtain ⟨pre, qcIn, groups, m, hpre, hqc, -, -, -⟩ :=
      doMultipleCheck_ok_inv _ _ _ _ _ _ _ h
    rcases List.mem_append.mp hm with hq | hp
    · exact prepareQcFunctions_ok_valid registry pre (.frame (toFrame data))
        (qcDict.getD []) qcIn hqc nm desc hq fn hfn f hf nl hnl p c hpc
    · exact preparePreprocessedVars_ok_valid registry (.frame (toFrame data))
        (prepDict.getD []) pre hpre nm desc hp fn hfn f hf nl hnl p c hpc

/-- Witness for C8 at concrete inputs: a bad parameter name, a missing
column, a Series membership test, and a successful run whose first
qc_dict binding is therefore valid. -/
theorem binding_errors_witness :
    getRequestsLoop hardLimitFunc (.frame wTable) [("bad", "value1")] =
      .error (.invalidParameter "bad" "do_hard_limit_check") ∧
    getRequestsLoop hardLimitFunc (.frame wTable) [("value", "nosuch")] =
      .error (.unknownColumn "nosuch") ∧
    isInData "value" (.ser "value" [0] (fun _ => 0)) = ("value" == "value") ∧
    (isFuncParam hardLimitFunc "value" = true ∧
      isInData "value1" (.frame (toFrame (.frame wTable))) = true) := by
  refine ⟨?_, ?_, ?_, ?_⟩
  · exact binding_errors.1 hardLimitFunc (.frame wTable) "bad" "value1" [] (by decide)
  · exact binding_errors.2.1 hardLimitFunc (.frame wTable) "value" "nosuch" []
      (by decide) (by decide)
  · exact binding_errors.2.2.1 "value" [0] (fun _ => 0) "value"
  · exact binding_errors.2.2.2 wReg (.frame wTable) .noneG (some wQcD) none "all"
      wRes (by rfl) "test1"
      ⟨some "do_hard_limit_check", some [("value", "value1")],
        [("limits", .list [2, 3])], []⟩
      (List.mem_append_left _ (List.mem_cons_self _ _))
      "do_hard_limit_check" rfl hardLimitFunc rfl
      [("value", "value1")] rfl "value" "value1" (List.mem_cons_self _ _)

/-- Inversion of a successful engine run: the matrix rows are the data
index, its columns the check names in order, and its entries come from the
group loop. -/
theorem runQcEngine_ok_inv (dataIndex : List RowId) (qcs : List QCInput)
    (groups : List (List RowId)) (rm : String) (m : FlagMatrix)
    (h : runQcEngine dataIndex qcs groups rm = .ok m) :
    m.index = dataIndex ∧ m.cols = qcs.map QCInput.name ∧
    runGroupsLoop rm qcs groups (fun _ => true) (fun _ _ => untested) = .ok m.entry := by
  rw [runQcEngine] at h
  split at h
  next e h1 => exact Except.noConfusion h
  next res hres =>
    injection h with h2
    subst h2
    exact ⟨rfl, rfl, hres⟩

/-- The prepared check inputs carry the configured check names in
configuration order. -/
theorem prepareQcFunctions_names (registry : List (String × PyFunc))
    (preprocessed : List (String × PyVal)) (data : PData) :
    ∀ (l : List (String × Descriptor)) (qcs : List QCInput),
      prepareQcFunctions registry preprocessed data l = .ok qcs →
      qcs.map QCInput.name = l.map Prod.fst := by
  intro l
  induction l with
  | nil =>
    intro qcs h
    rw [prepareQcFunctions] at h
    injection h with h2
    rw [← h2]
    rfl
  | cons nd rest ih =>
    obtain ⟨nm', desc'⟩ := nd
    intro qcs h
    obtain ⟨fn, f, reqs, kwargs, qcs', -, -, -, -, hrest, hshape⟩ :=
      prepareQcFunctions_cons_inv _ _ _ _ _ _ _ h
    subst hshape
    simp only [List.map_cons]
    exact congrArg (nm' :: ·) (ih qcs' hrest)

/-- C1: a successful entry-point run on a DataFrame returns a flag matrix
whose row index is exactly the input index and whose columns are exactly
the configured check names in insertion order; on a Series it returns a
single row of those check names; and the three public entry points are the
internal entry with their respective grouping defaults. -/
theorem result_shape :
    (∀ registry (t : Table) gb qcDict prepDict rm res,
      doMultipleCheck registry (.frame t) gb qcDict prepDict rm = .ok res →
      ∃ m, res = .frame m ∧ m.index = t.index ∧
        m.cols = (qcDict.getD []).map Prod.fst) ∧
    (∀ registry n idx v gb qcDict prepDict rm res,
      doMultipleCheck registry (.ser n idx v) gb qcDict prepDict rm = .ok res →
      ∃ e, res = .row ((qcDict.getD []).map Prod.fst) e) ∧
    (∀ registry (data : PData) qcDict prepDict rm,
      doMultipleIndividualCheck registry data qcDict prepDict rm =
        doMultipleCheck registry data .noneG qcDict prepDict rm ∧
      (∀ gb, doMultipleSequentialCheck registry data gb qcDict prepDict rm =
        doMultipleCheck registry data gb qcDict prepDict rm) ∧
      doMultipleGroupedCheck registry data qcDict prepDict rm =
        doMultipleCheck registry data .noneG qcDict prepDict rm) := by
  refine ⟨?_, ?_, ?_⟩
  · intro registry t gb qcDict prepDict rm res h
    obtain ⟨pre, qcIn, groups, m, hpre, hqc, hg, hm, hcase⟩ :=
      doMultipleCheck_ok_inv _ _ _ _ _ _ _ h
    obtain ⟨hidx, hcols, -⟩ := runQcEngine_ok_inv _ _ _ _ _ hm
    rcases hcase with ⟨t', ht', hres⟩ | ⟨n, idx, v, r0, tl, hd, -, -⟩
    · injection ht' with ht2
      subst ht2
      refine ⟨m, hres, hidx, ?_⟩
      rw [hcols]
      exact prepareQcFunctions_names _ _ _ _ _ hqc
    · exact PData.noConfusion hd
  · intro registry n idx v gb qcDict prepDict rm res h
    obtain ⟨pre, qcIn, groups, m, hpre, hqc, hg, hm, hcase⟩ :=
      doMultipleCheck_ok_inv _ _ _ _ _ _ _ h
    obtain ⟨hidx, hcols, -⟩ := runQcEngine_ok_inv _ _ _ _ _ hm
    rcases hcase with ⟨t', ht', -⟩ | ⟨n', idx', v', r0, tl, hd, -, hres⟩
    · exact PData.noConfusion ht'
    · refine ⟨fun c => m.entry r0 c, ?_⟩
      rw [hres, hcols, prepareQcFunctions_names _ _ _ _ _ hqc]
  · intro registry data qcDict prepDict rm
    exact ⟨rfl, fun gb => rfl, rfl⟩

/-- Witness for C1 at the concrete scenario runs. -/
theorem result_shape_witness :
    (∃ m, wRes = .frame m ∧ m.index = wTable.index ∧
      m.cols = ((some wQcD).getD []).map Prod.fst) ∧
    (∃ e, wSerRes = .row (((some wSerQcD).getD []).map Prod.fst) e) := by
  constructor
  · exact result_shape.1 wReg wTable .noneG (some wQcD) none "all" wRes (by rfl)
  · exact result_shape.2.1 wReg "value" [0, 1, 2, 3] (fun r => [1, 2, 3, 4].getD r 0)
      .noneG (some wSerQcD) none "all" wSerRes (by rfl)

/-- C10: a Series input of length at least one is converted by to_frame
into an N-row one-column table whose column carries the Series name, the
whole run proceeds exactly as for that N-row frame (every configured check
runs over all N rows), and only the first row of the resulting flag matrix
is returned; the flags computed for rows 1..N-1 are discarded. -/
theorem series_first_row (registry : List (String × PyFunc)) (n : String)
    (idx : List RowId) (v : RowId → Val) (gb : GroupBy)
    (qcDict prepDict : Option (List (String × Descriptor))) (rm : String)
    (h : idx ≠ []) :
    (toFrame (.ser n idx v)).index = idx ∧
    (toFrame (.ser n idx v)).cols = [n] ∧
    doMultipleCheck registry (.ser n idx v) gb qcDict prepDict rm =
      Except.map ilocZero
        (doMultipleCheck registry (.frame (toFrame (.ser n idx v)))
          gb qcDict prepDict rm) := by
  refine ⟨rfl, rfl, ?_⟩
  obtain ⟨r0, tl, rfl⟩ : ∃ r0 tl, idx = r0 :: tl := by
    cases idx with
    | nil => exact absurd rfl h
    | cons a b => exact ⟨a, b, rfl⟩
  rw [doMultipleCheck, doMultipleCheck]
  by_cases hrm : (!(rm == "all" || rm == "passed" || rm == "failed")) = true
  · rw [if_pos hrm, if_pos hrm]
    rfl
  · rw [if_neg hrm, if_neg hrm]
    simp only [toFrame]
    split
    next e hpre => rfl
    next pre hpre =>
      split
      next e hqc => rfl
      next qcIn hqc =>
        split
        next e hg => rfl
        next groups hg =>
          split
          next e hm => rfl
          next m hm =>
            obtain ⟨hidx, -, -⟩ := runQcEngine_ok_inv _ _ _ _ _ hm
            simp only [Except.map, ilocZero]
            rw [hidx]
            rfl

/-- Witness for C10 at the concrete Series scenario. -/
theorem series_first_row_witness :
    (toFrame wSerData).index = [0, 1, 2, 3] ∧
    (toFrame wSerData).cols = ["value"] ∧
    doMultipleCheck wReg wSerData .noneG (some wSerQcD) none "all" =
      Except.map ilocZero
        (doMultipleCheck wReg (.frame (toFrame wSerData)) .noneG
          (some wSerQcD) none "all") :=
  series_first_row wReg "value" [0, 1, 2, 3] (fun r => [1, 2, 3, 4].getD r 0)
    .noneG (some wSerQcD) none "all" (by decide)

/-- Membership in the first-seen key list is membership in the key list. -/
theorem mem_firstSeen {α : Type} [DecidableEq α] (a : α) :
    ∀ l : List α, a ∈ firstSeen l ↔ a ∈ l := by
  intro l
  induction l with
  | nil => simp [firstSeen]
  | cons b bs ih =>
    simp only [firstSeen, List.mem_cons, List.mem_filter, decide_eq_true_eq]
    constructor
    · rintro (rfl | ⟨h1, h2⟩)
      · exact .inl rfl
      · exact .inr (ih.mp h1)
    · rintro (rfl | hmem)
      · exact .inl rfl
      · by_cases hab : a = b
        · exact .inl hab
        · exact .inr ⟨ih.mpr hmem, hab⟩

/-- The first-seen key list has no duplicates. -/
theorem nodup_firstSeen {α : Type} [DecidableEq α] :
    ∀ l : List α, (firstSeen l).Nodup := by
  intro l
  induction l with
  | nil => simp [firstSeen]
  | cons b bs ih =>
    rw [firstSeen]
    refine List.nodup_cons.mpr ⟨?_, List.Nodup.filter _ ih⟩
    intro hmem
    have hne := (List.mem_filter.mp hmem).2
    simp at hne

/-- C4 as amended: groups with groupby=None or by-column grouping are
pairwise disjoint and cover the table rows; a pre-built groupby is
intersected with the table index with empty intersections dropped, so its
groups are pairwise disjoint whenever the supplied groups are, and their
union is the set of supplied-group rows present in the table: rows in no
supplied group are left out. -/
theorem grouping_partition (t : Table) :
    (∀ groups, groupsOf t .noneG = .ok groups →
      groups.Pairwise (fun a b => ∀ r, r ∈ a → r ∉ b) ∧
      (∀ r, (∃ g ∈ groups, r ∈ g) ↔ r ∈ t.index)) ∧
    (∀ cols groups, groupsOf t (.byCols cols) = .ok groups →
      groups.Pairwise (fun a b => ∀ r, r ∈ a → r ∉ b) ∧
      (∀ r, (∃ g ∈ groups, r ∈ g) ↔ r ∈ t.index)) ∧
    (∀ gs groups, groupsOf t (.prebuilt gs) = .ok groups →
      (gs.Pairwise (fun a b => ∀ r, r ∈ a → r ∉ b) →
        groups.Pairwise (fun a b => ∀ r, r ∈ a → r ∉ b)) ∧
      (∀ r, (∃ g ∈ groups, r ∈ g) ↔ (∃ g ∈ gs, r ∈ g) ∧ r ∈ t.index)) := by
  refine ⟨?_, ?_, ?_⟩
  · intro groups h
    rw [groupsOf] at h
    injection h with h2
    subst h2
    refine ⟨List.pairwise_singleton _ _, ?_⟩
    intro r
    simp
  · intro cols groups h
    rw [groupsOf] at h
    split at h
    next c hfind => exact Except.noConfusion h
    next hfind =>
      injection h with h2
      subst h2
      constructor
      · rw [groupByCols]
        refine List.pairwise_map.mpr (List.Pairwise.imp ?_ ((nodup_firstSeen _)))
        intro k1 k2 hne r hr1 hr2
        have e1 := eq_of_beq (List.mem_filter.mp hr1).2
        have e2 := eq_of_beq (List.mem_filter.mp hr2).2
        exact hne (e1 ▸ e2)
      · intro r
        constructor
        · rintro ⟨g, hg, hrg⟩
          rw [groupByCols] at hg
          obtain ⟨k, hk, rfl⟩ := List.mem_map.mp hg
          exact (List.mem_filter.mp hrg).1
        · intro hr
          refine ⟨t.index.filter (fun r' => keyOf t cols r' == keyOf t cols r), ?_, ?_⟩
          · rw [groupByCols]
            refine List.mem_map.mpr ⟨keyOf t cols r, ?_, rfl⟩
            exact (mem_firstSeen _ _).mpr (List.mem_map_of_mem _ hr)
          · exact List.mem_filter.mpr ⟨hr, by simp⟩
  · intro gs groups h
    rw [groupsOf] at h
    injection h with h2
    subst h2
    constructor
    · intro hdisj
      rw [normalizePrebuilt]
      refine List.Pairwise.filter _ (List.pairwise_map.mpr (List.Pairwise.imp ?_ hdisj))
      intro g1 g2 hd r hr1 hr2
      exact hd r (List.mem_filter.mp hr1).1 (List.mem_filter.mp hr2).1
    · intro r
      rw [normalizePrebuilt]
      constructor
      · rintro ⟨g, hg, hrg⟩
        obtain ⟨g0, hg0, rfl⟩ := List.mem_map.mp (List.mem_filter.mp hg).1
        obtain ⟨hr0, hcont⟩ := List.mem_filter.mp hrg
        refine ⟨⟨g0, hg0, hr0⟩, ?_⟩
        simpa using hcont
      · rintro ⟨⟨g0, hg0, hr0⟩, hidx⟩
        refine ⟨g0.filter (fun r' => t.index.contains r'),
          List.mem_filter.mpr ⟨List.mem_map_of_mem _ hg0, ?_⟩,
          List.mem_filter.mpr ⟨hr0, by simpa using hidx⟩⟩
        simp
        exact ⟨r, hr0, hidx⟩

/-- C4 counterexample: a pre-built groupby covering only row 0 of a
two-row table yields the single group of row 0 after normalization; row 1
is in the table index but in no group, so the union of the groups is not
the full row set. -/
theorem grouping_counterexample :
    groupsOf cexTable (GroupBy.prebuilt [[0]]) = .ok [[0]] ∧
    cexTable.index = [0, 1] ∧
    ¬ (∃ g ∈ [[(0 : RowId)]], (1 : RowId) ∈ g) := by
  refine ⟨rfl, rfl, ?_⟩
  rintro ⟨g, hg, hr⟩
  simp at hg
  subst hg
  simp at hr

/-- Witness for the amended C4 at a concrete pre-built grouping. -/
theorem grouping_partition_witness :
    ([[0], [1]] : List (List RowId)).Pairwise (fun a b => ∀ r, r ∈ a → r ∉ b) ∧
    ((∃ g ∈ ([[0], [1]] : List (List RowId)), (1 : RowId) ∈ g) ↔
      (∃ g ∈ ([[0], [1]] : List (List RowId)), (1 : RowId) ∈ g) ∧
        (1 : RowId) ∈ cexTable.index) := by
  have h := (grouping_partition cexTable).2.2 [[0], [1]] [[0], [1]] rfl
  refine ⟨h.1 ?_, h.2 1⟩
  refine List.Pairwise.cons ?_ (List.pairwise_singleton _ _)
  intro b hb r hr
  simp at hb hr
  subst hb
  subst hr
  simp

/-- Full characterization of one engine check step: the aligned flags of
the full-group invocation are written at masked group rows, unmasked group
rows get untested in the check's column, rows outside the group and other
columns are untouched, the global mask is untouched outside the group, and
a false group mask stays false. -/
theorem runCheckStep_inv (rm : String) (gIdx : List RowId) (qc : QCInput)
    (gm mask : RowId → Bool) (res : Results)
    (gm' mask' : RowId → Bool) (res' : Results)
    (h : runCheckStep rm gIdx qc gm mask res = .ok (gm', mask', res')) :
    ∃ pf, alignRet (invokeOnGroup qc gIdx) gIdx = .ok pf ∧
      (∀ r, gIdx.contains r = true → gm r = true → res' r qc.name = pf r) ∧
      (∀ r, gIdx.contains r = true → gm r = false → res' r qc.name = untested) ∧
      (∀ r, gIdx.contains r = false → ∀ c, res' r c = res r c) ∧
      (∀ r c, c ≠ qc.name → res' r c = res r c) ∧
      (∀ r, gIdx.contains r = false → mask' r = mask r) ∧
      (∀ r, gm r = false → gm' r = false) ∧
      (∀ r, gm r = true →
        ((rm = "passed" ∧ pf r = passed) ∨ (rm = "failed" ∧ pf r = failed)) →
        gm' r = false) := by
  rw [runCheckStep] at h
  split at h
  next e ha => exact Except.noConfusion h
  next pf ha =>
    refine ⟨pf, ha, ?_⟩
    by_cases hf : (rm == "failed") = true
    · rw [if_pos hf] at h
      have hrmF : rm = "failed" := by simpa using hf
      injection h with h2
      injection h2 with hgm h23
      injection h23 with hmask hres
      subst hgm
      subst hmask
      subst hres
      refine ⟨?_, ?_, ?_, ?_, ?_, ?_, ?_⟩
      · intro r hc hgm
        simp at hc
        simp [hc, hgm]
      · intro r hc hgm
        simp at hc
        simp [hc, hgm]
      · intro r hc c
        simp at hc
        simp [hc]
      · intro r c hne
        simp [beq_eq_false_iff_ne.mpr hne]
      · intro r hc
        simp at hc
        simp [hc]
      · intro r hgm
        simp [hgm]
      · intro r hgm hd
        rcases hd with ⟨hrmp, hpf⟩ | ⟨hrmf, hpf⟩
        · rw [hrmp] at hrmF
          exact absurd hrmF (by decide)
        · simp [hgm, hpf]
    · rw [if_neg hf] at h
      by_cases hp : (rm == "passed") = true
      · rw [if_pos hp] at h
        have hrmP : rm = "passed" := by simpa using hp
        injection h with h2
        injection h2 with hgm h23
        injection h23 with hmask hres
        subst hgm
        subst hmask
        subst hres
        refine ⟨?_, ?_, ?_, ?_, ?_, ?_, ?_⟩
        · intro r hc hgm
          simp at hc
          simp [hc, hgm]
        · intro r hc hgm
          simp at hc
          simp [hc, hgm]
        · intro r hc c
          simp at hc
          simp [hc]
        · intro r c hne
          simp [beq_eq_false_iff_ne.mpr hne]
        · intro r hc
          simp at hc
          simp [hc]
        · intro r hgm
          simp [hgm]
        · intro r hgm hd
          rcases hd with ⟨hrmp, hpf⟩ | ⟨hrmf, hpf⟩
          · simp [hgm, hpf]
          · rw [hrmf] at hrmP
            exact absurd hrmP (by decide)
      · rw [if_neg hp] at h
        injection h with h2
        injection h2 with hgm h23
        injection h23 with hmask hres
        subst hgm
        subst hmask
        subst hres
        refine ⟨?_, ?_, ?_, ?_, ?_, ?_, ?_⟩
        · intro r hc hgm
          simp at hc
          simp [hc, hgm]
        · intro r hc hgm
          simp at hc
          simp [hc, hgm]
        · intro r hc c
          simp at hc
          simp [hc]
        · intro r c hne
          simp [beq_eq_false_iff_ne.mpr hne]
        · intro r hc
          rfl
        · intro r hgm
          exact hgm
        · intro r hgm hd
          rcases hd with ⟨hrmp, hpf⟩ | ⟨hrmf, hpf⟩
          · exact absurd (by simpa using hrmp) hp
          · exact absurd (by simpa using hrmf) hf

/-- C3: within a group, each check step invokes the check callable on
arguments sliced to the entire group (all group rows, including rows whose
mask is already false), aligns the returned flags to the group's row
identifiers, and writes them into the result only at rows where the group
mask is currently true; a group row whose mask is false keeps the untested
flag it already held in that check's column, and rows outside the group
are untouched. -/
theorem group_slice_and_masked_write (rm : String) (gIdx : List RowId)
    (qc : QCInput) (gm mask : RowId → Bool) (res : Results)
    (gm' mask' : RowId → Bool) (res' : Results)
    (h : runCheckStep rm gIdx qc gm mask res = .ok (gm', mask', res')) :
    ∃ pf, alignRet (invokeOnGroup qc gIdx) gIdx = .ok pf ∧
      (∀ r, gIdx.contains r = true → gm r = true → res' r qc.name = pf r) ∧
      (∀ r, gIdx.contains r = true → gm r = false →
        res' r qc.name = untested ∧
        (res r qc.name = untested → res' r qc.name = res r qc.name)) ∧
      (∀ r, gIdx.contains r = false → ∀ c, res' r c = res r c) := by
  obtain ⟨pf, ha, c1, c2, c3, -, -, -, -⟩ :=
    runCheckStep_inv _ _ _ _ _ _ _ _ _ h
  exact ⟨pf, ha, c1,
    fun r hc hgm => ⟨c2 r hc hgm, fun hu => (c2 r hc hgm).trans hu.symm⟩, c3⟩

/-- Witness for C3 at the concrete step run. -/
theorem group_slice_and_masked_write_witness :
    ∃ pf, alignRet (invokeOnGroup wStepQc [0, 1]) [0, 1] = .ok pf ∧
      (∀ r, ([0, 1] : List RowId).contains r = true → (r == 0) = true →
        wStepOut.2.2 r wStepQc.name = pf r) ∧
      (∀ r, ([0, 1] : List RowId).contains r = true → (r == 0) = false →
        wStepOut.2.2 r wStepQc.name = untested ∧
        ((fun _ _ => untested : Results) r wStepQc.name = untested →
          wStepOut.2.2 r wStepQc.name =
            (fun _ _ => untested : Results) r wStepQc.name)) ∧
      (∀ r, ([0, 1] : List RowId).contains r = false → ∀ c,
        wStepOut.2.2 r c = (fun _ _ => untested : Results) r c) :=
  group_slice_and_masked_write "all" [0, 1] wStepQc (fun r => r == 0)
    (fun _ => true) (fun _ _ => untested) wStepOut.1 wStepOut.2.1 wStepOut.2.2
    (by rfl)

/-- Processing a group leaves results and global mask untouched at rows
outside the group. -/
theorem runGroupChecks_outside (rm : String) (gIdx : List RowId) :
    ∀ (cs : List QCInput) (gm mask : RowId → Bool) (res : Results)
      (mask' : RowId → Bool) (res' : Results),
      runGroupChecks rm gIdx cs gm mask res = .ok (mask', res') →
      ∀ r, gIdx.contains r = false →
        (∀ c, res' r c = res r c) ∧ mask' r = mask r := by
  intro cs
  induction cs with
  | nil =>
    intro gm mask res mask' res' h r hc
    rw [runGroupChecks] at h
    injection h with h2
    injection h2 with e1 e2
    subst e1
    subst e2
    exact ⟨fun c => rfl, rfl⟩
  | cons qc cs ih =>
    intro gm mask res mask' res' h r hc
    rw [runGroupChecks] at h
    split at h
    · injection h with h2
      injection h2 with e1 e2
      subst e1
      subst e2
      exact ⟨fun c => rfl, rfl⟩
    · split at h
      next e hstep => exact Except.noConfusion h
      next gm1 mask1 res1 hstep =>
        obtain ⟨pf, ha, c1, c2, c3, c4, c5, c6, c7⟩ :=
          runCheckStep_inv _ _ _ _ _ _ _ _ _ hstep
        obtain ⟨hres, hmask⟩ := ih _ _ _ _ _ h r hc
        exact ⟨fun c => (hres c).trans (c3 r hc c), hmask.trans (c5 r hc)⟩

/-- Processing a group leaves columns named by no check of the group
untouched. -/
theorem runGroupChecks_other_col (rm : String) (gIdx : List RowId) :
    ∀ (cs : List QCInput) (gm mask : RowId → Bool) (res : Results)
      (mask' : RowId → Bool) (res' : Results),
      runGroupChecks rm gIdx cs gm mask res = .ok (mask', res') →
      ∀ c, (∀ qc ∈ cs, qc.name ≠ c) → ∀ r, res' r c = res r c := by
  intro cs
  induction cs with
  | nil =>
    intro gm mask res mask' res' h c hc r
    rw [runGroupChecks] at h
    injection h with h2
    injection h2 with e1 e2
    subst e1
    subst e2
    rfl
  | cons qc cs ih =>
    intro gm mask res mask' res' h c hc r
    rw [runGroupChecks] at h
    split at h
    · injection h with h2
      injection h2 with e1 e2
      subst e1
      subst e2
      rfl
    · split at h
      next e hstep => exact Except.noConfusion h
      next gm1 mask1 res1 hstep =>
        obtain ⟨pf, ha, c1, c2, c3, c4, c5, c6, c7⟩ :=
          runCheckStep_inv _ _ _ _ _ _ _ _ _ hstep
        have htail := ih _ _ _ _ _ h c (fun qc' hm => hc qc' (List.mem_cons_of_mem _ hm)) r
        rw [htail]
        exact c4 r c (Ne.symm (hc qc (List.mem_cons_self _ _)))

/-- Once a row's group mask is false, the rest of the group's checks can
only leave its cells unchanged or write untested. -/
theorem runGroupChecks_dead (rm : String) (gIdx : List RowId) :
    ∀ (cs : List QCInput) (gm mask : RowId → Bool) (res : Results)
      (mask' : RowId → Bool) (res' : Results),
      runGroupChecks rm gIdx cs gm mask res = .ok (mask', res') →
      ∀ r, gm r = false → ∀ c, res' r c = res r c ∨ res' r c = untested := by
  intro cs
  induction cs with
  | nil =>
    intro gm mask res mask' res' h r hgm c
    rw [runGroupChecks] at h
    injection h with h2
    injection h2 with e1 e2
    subst e1
    subst e2
    exact .inl rfl
  | cons qc cs ih =>
    intro gm mask res mask' res' h r hgm c
    rw [runGroupChecks] at h
    split at h
    · injection h with h2
      injection h2 with e1 e2
      subst e1
      subst e2
      exact .inl rfl
    · split at h
      next e hstep => exact Except.noConfusion h
      next gm1 mask1 res1 hstep =>
        obtain ⟨pf, ha, c1, c2, c3, c4, c5, c6, c7⟩ :=
          runCheckStep_inv _ _ _ _ _ _ _ _ _ hstep
        have hgm1 : gm1 r = false := c6 r hgm
        rcases ih _ _ _ _ _ h r hgm1 c with htail | htail
        · rw [htail]
          by_cases hcont : gIdx.contains r = true
          · by_cases hcc : c = qc.name
            · subst hcc
              exact .inr (c2 r hcont hgm)
            · exact .inl (c4 r c hcc)
          · exact .inl (c3 r (by simpa using hcont) c)
        · exact .inr htail

/-- Within one group, under the passed or failed policy, once a row's cell
holds the gating flag in an earlier check column, every later check column
of that row is untested (check names are distinct and the row's cells
start untested). -/
theorem runGroupChecks_gate (rm : String) (g : Flag) (gIdx : List RowId)
    (hrm : (rm = "passed" ∧ g = passed) ∨ (rm = "failed" ∧ g = failed)) :
    ∀ (cs : List QCInput) (gm mask : RowId → Bool) (res : Results)
      (mask' : RowId → Bool) (res' : Results),
      runGroupChecks rm gIdx cs gm mask res = .ok (mask', res') →
      (cs.map QCInput.name).Nodup →
      ∀ r, (∀ qc ∈ cs, res r qc.name = untested) →
      ∀ i j (hi : i < cs.length) (hj : j < cs.length), i < j →
      res' r ((cs.get ⟨i, hi⟩).name) = g →
      res' r ((cs.get ⟨j, hj⟩).name) = untested := by
  have hgne : g ≠ untested := by
    rcases hrm with ⟨-, rfl⟩ | ⟨-, rfl⟩ <;> decide
  intro cs
  induction cs with
  | nil =>
    intro gm mask res mask' res' h hnd r hres0 i j hi hj hij hgate
    exact absurd hi (by simp)
  | cons qc cs ih =>
    intro gm mask res mask' res' h hnd r hres0 i j hi hj hij hgate
    rw [runGroupChecks] at h
    split at h
    · injection h with h2
      injection h2 with e1 e2
      subst e1
      subst e2
      rw [hres0 _ (List.get_mem _ _ _)] at hgate
      exact absurd hgate.symm hgne
    · split at h
      next e hstep => exact Except.noConfusion h
      next gm1 mask1 res1 hstep =>
        obtain ⟨pf, ha, c1, c2, c3, c4, c5, c6, c7⟩ :=
          runCheckStep_inv _ _ _ _ _ _ _ _ _ hstep
        have hheadnew : ∀ qc' ∈ cs, qc'.name ≠ qc.name := by
          intro qc' hmem hEq
          exact (List.nodup_cons.mp hnd).1 (hEq ▸ List.mem_map_of_mem _ hmem)
        have hres1 : ∀ qc' ∈ cs, res1 r qc'.name = untested := by
          intro qc' hmem
          rw [c4 r qc'.name (hheadnew qc' hmem)]
          exact hres0 qc' (List.mem_cons_of_mem _ hmem)
        cases i with
        | zero =>
          have hcol : res' r qc.name = res1 r qc.name :=
            runGroupChecks_other_col rm gIdx cs gm1 mask1 res1 mask' res' h
              qc.name hheadnew r
          have hr1 : res1 r qc.name = g := by
            rw [← hcol]
            exact hgate
          cases j with
          | zero => exact absurd hij (by omega)
          | succ j' =>
            by_cases hcont : gIdx.contains r = true
            · by_cases hgm : gm r = true
              · have hpf : pf r = g := by
                  rw [c1 r hcont hgm] at hr1
                  exact hr1
                have hgm1 : gm1 r = false := by
                  rcases hrm with ⟨hrm1, hg⟩ | ⟨hrm1, hg⟩
                  · exact c7 r hgm (.inl ⟨hrm1, by rw [hpf, hg]⟩)
                  · exact c7 r hgm (.inr ⟨hrm1, by rw [hpf, hg]⟩)
                have hj' : j' < cs.length := Nat.lt_of_succ_lt_succ hj
                show res' r ((cs.get ⟨j', hj'⟩).name) = untested
                rcases runGroupChecks_dead rm gIdx cs gm1 mask1 res1 mask' res' h
                    r hgm1 ((cs.get ⟨j', hj'⟩).name) with hcase | hcase
                · rw [hcase]
                  exact hres1 _ (List.get_mem _ _ _)
                · exact hcase
              · have hgmF : gm r = false := by simpa using hgm
                rw [c2 r hcont hgmF] at hr1
                exact absurd hr1.symm hgne
            · have hcF : gIdx.contains r = false := by simpa using hcont
              rw [c3 r hcF qc.name, hres0 qc (List.mem_cons_self _ _)] at hr1
              exact absurd hr1.symm hgne
        | succ i' =>
          cases j with
          | zero => exact absurd hij (by omega)
          | succ j' =>
            exact ih gm1 mask1 res1 mask' res' h (List.nodup_cons.mp hnd).2 r hres1
              i' j' (Nat.lt_of_succ_lt_succ hi) (Nat.lt_of_succ_lt_succ hj)
              (Nat.lt_of_succ_lt_succ hij) hgate

/-- The group loop leaves rows belonging to no processed group untouched. -/
theorem runGroupsLoop_outside (rm : String) (qcs : List QCInput) :
    ∀ (gs : List (List RowId)) (mask : RowId → Bool) (res : Results)
      (resF : Results),
      runGroupsLoop rm qcs gs mask res = .ok resF →
      ∀ r, (∀ gIdx ∈ gs, gIdx.contains r = false) → ∀ c, resF r c = res r c := by
  intro gs
  induction gs with
  | nil =>
    intro mask res resF h r hout c
    rw [runGroupsLoop] at h
    injection h with h2
    subst h2
    rfl
  | cons gIdx gs ih =>
    intro mask res resF h r hout c
    rw [runGroupsLoop] at h
    split at h
    next e hstep => exact Except.noConfusion h
    next mask1 res1 hstep =>
      obtain ⟨hres, -⟩ := runGroupChecks_outside rm gIdx qcs mask mask res mask1
        res1 hstep r (hout gIdx (List.mem_cons_self _ _))
      rw [ih mask1 res1 resF h r (fun b hb => hout b (List.mem_cons_of_mem _ hb)) c]
      exact hres c

/-- The group loop, under the passed or failed policy with distinct check
names and pairwise disjoint groups, keeps every later check column of a
row untested once an earlier column holds the gating flag. -/
theorem runGroupsLoop_gate (rm : String) (g : Flag) (qcs : List QCInput)
    (hrm : (rm = "passed" ∧ g = passed) ∨ (rm = "failed" ∧ g = failed))
    (hnd : (qcs.map QCInput.name).Nodup) :
    ∀ (gs : List (List RowId)) (mask : RowId → Bool) (res : Results)
      (resF : Results),
      runGroupsLoop rm qcs gs mask res = .ok resF →
      gs.Pairwise (fun a b => ∀ r, r ∈ a → r ∉ b) →
      ∀ r, (∀ qc ∈ qcs, res r qc.name = untested) →
      ∀ i j (hi : i < qcs.length) (hj : j < qcs.length), i < j →
      resF r ((qcs.get ⟨i, hi⟩).name) = g →
      resF r ((qcs.get ⟨j, hj⟩).name) = untested := by
  have hgne : g ≠ untested := by
    rcases hrm with ⟨-, rfl⟩ | ⟨-, rfl⟩ <;> decide
  intro gs
  induction gs with
  | nil =>
    intro mask res resF h hdisj r hres0 i j hi hj hij hgate
    rw [runGroupsLoop] at h
    injection h with h2
    subst h2
    rw [hres0 _ (List.get_mem _ _ _)] at hgate
    exact absurd hgate.symm hgne
  | cons gIdx gs ih =>
    intro mask res resF h hdisj r hres0 i j hi hj hij hgate
    rw [runGroupsLoop] at h
    split at h
    next e hstep => exact Except.noConfusion h
    next mask1 res1 hstep =>
      by_cases hc : gIdx.contains r = true
      · have hrG : r ∈ gIdx := by simpa using hc
        have hout : ∀ b ∈ gs, b.contains r = false := by
          intro b hb
          have hnot := (List.pairwise_cons.mp hdisj).1 b hb r hrG
          simpa using hnot
        have hreseq : ∀ c, resF r c = res1 r c := fun c =>
          runGroupsLoop_outside rm qcs gs mask1 res1 resF h r hout c
        rw [hreseq] at hgate
        rw [hreseq]
        exact runGroupChecks_gate rm g gIdx hrm qcs mask mask res mask1 res1
          hstep hnd r hres0 i j hi hj hij hgate
      · have hcF : gIdx.contains r = false := by simpa using hc
        obtain ⟨hres1, -⟩ := runGroupChecks_outside rm gIdx qcs mask mask res
          mask1 res1 hstep r hcF
        exact ih mask1 res1 resF h (List.pairwise_cons.mp hdisj).2 r
          (fun qc hm => (hres1 qc.name).trans (hres0 qc hm)) i j hi hj hij hgate

/-- C2: with return_method passed (or failed), for every engine run over
pairwise disjoint groups with distinct check names, once a row holds the
flag passed (or failed) in an earlier check column, every later check
column of that row holds untested. -/
theorem short_circuit_monotonic (rm : String) (g : Flag)
    (dataIndex : List RowId) (qcs : List QCInput)
    (groups : List (List RowId)) (M : FlagMatrix)
    (hrm : (rm = "passed" ∧ g = passed) ∨ (rm = "failed" ∧ g = failed))
    (hnd : (qcs.map QCInput.name).Nodup)
    (hdisj : groups.Pairwise (fun a b => ∀ r, r ∈ a → r ∉ b))
    (hrun : runQcEngine dataIndex qcs groups rm = .ok M)
    (i j : Nat) (hi : i < qcs.length) (hj : j < qcs.length) (hij : i < j)
    (r : RowId)
    (hgate : M.entry r ((qcs.get ⟨i, hi⟩).name) = g) :
    M.entry r ((qcs.get ⟨j, hj⟩).name) = untested := by
  obtain ⟨-, -, hloop⟩ := runQcEngine_ok_inv _ _ _ _ _ hrun
  exact runGroupsLoop_gate rm g qcs hrm hnd groups (fun _ => true)
    (fun _ _ => untested) M.entry hloop hdisj r (fun _ _ => rfl)
    i j hi hj hij hgate

/-- Witness for C2: in the passed-policy scenario run, row 1 passes test1
(column 0) and its test2 cell (column 1) is untested. -/
theorem short_circuit_monotonic_witness :
    wM.entry 1 ((wQcIn.get ⟨1, by decide⟩).name) = untested :=
  short_circuit_monotonic "passed" passed wTable.index wQcIn [wTable.index] wM
    (.inl ⟨rfl, rfl⟩) (by decide)
    (List.pairwise_singleton _ _) (by rfl) 0 1 (by decide) (by decide)
    (by decide) 1 (by rfl)

/-- List.any only depends on the values at the list members. -/
theorem any_congr_on (B : List RowId) (f1 f2 : RowId → Bool)
    (h : ∀ r ∈ B, f1 r = f2 r) : B.any f1 = B.any f2 := by
  induction B with
  | nil => rfl
  | cons a as ih =>
    simp only [List.any_cons]
    rw [h a (List.mem_cons_self _ _),
      ih (fun r hr => h r (List.mem_cons_of_mem _ hr))]

/-- Two check steps over the same group whose invocations on that group
coincide, starting from states that agree on the group rows, produce
states that agree on the group rows. -/
theorem runCheckStep_B_agree (rm : String) (B : List RowId)
    (qc1 qc2 : QCInput) (hname : qc1.name = qc2.name)
    (hinv : invokeOnGroup qc1 B = invokeOnGroup qc2 B)
    (gm1 mask1 : RowId → Bool) (res1 : Results)
    (gm2 mask2 : RowId → Bool) (res2 : Results)
    (hag : ∀ r ∈ B, gm1 r = gm2 r ∧ mask1 r = mask2 r ∧ ∀ c, res1 r c = res2 r c)
    (g1 m1 : RowId → Bool) (r1 : Results)
    (g2 m2 : RowId → Bool) (r2 : Results)
    (h1 : runCheckStep rm B qc1 gm1 mask1 res1 = .ok (g1, m1, r1))
    (h2 : runCheckStep rm B qc2 gm2 mask2 res2 = .ok (g2, m2, r2)) :
    ∀ r ∈ B, g1 r = g2 r ∧ m1 r = m2 r ∧ ∀ c, r1 r c = r2 r c := by
  rw [runCheckStep] at h1 h2
  rw [hinv] at h1
  cases ha : alignRet (invokeOnGroup qc2 B) B with
  | error e =>
    rw [ha] at h1
    exact Except.noConfusion h1
  | ok pf =>
    simp only [ha] at h1 h2
    by_cases hf : (rm == "failed") = true
    · rw [if_pos hf] at h1 h2
      injection h1 with h1'
      injection h1' with hA1 h1''
      injection h1'' with hB1 hC1
      injection h2 with h2'
      injection h2' with hA2 h2''
      injection h2'' with hB2 hC2
      intro r hrB
      obtain ⟨e1, e2, e3⟩ := hag r hrB
      refine ⟨?_, ?_, ?_⟩
      · simp only [← hA1, ← hA2, e1]
      · simp only [← hB1, ← hB2, e1, e2]
      · intro c
        simp only [← hC1, ← hC2, hname, e1, e3]
    · rw [if_neg hf] at h1 h2
      by_cases hp : (rm == "passed") = true
      · rw [if_pos hp] at h1 h2
        injection h1 with h1'
        injection h1' with hA1 h1''
        injection h1'' with hB1 hC1
        injection h2 with h2'
        injection h2' with hA2 h2''
        injection h2'' with hB2 hC2
        intro r hrB
        obtain ⟨e1, e2, e3⟩ := hag r hrB
        refine ⟨?_, ?_, ?_⟩
        · simp only [← hA1, ← hA2, e1]
        · simp only [← hB1, ← hB2, e1, e2]
        · intro c
          simp only [← hC1, ← hC2, hname, e1, e3]
      · rw [if_neg hp] at h1 h2
        injection h1 with h1'
        injection h1' with hA1 h1''
        injection h1'' with hB1 hC1
        injection h2 with h2'
        injection h2' with hA2 h2''
        injection h2'' with hB2 hC2
        intro r hrB
        obtain ⟨e1, e2, e3⟩ := hag r hrB
        refine ⟨?_, ?_, ?_⟩
        · simp only [← hA1, ← hA2, e1]
        · simp only [← hB1, ← hB2, e1, e2]
        · intro c
          simp only [← hC1, ← hC2, hname, e1, e3]

/-- The check relation used for cross-run agreement: equal check names and
equal invocations on the group B. -/
def CheckAgree (B : List RowId) (a b : QCInput) : Prop :=
  a.name = b.name ∧ invokeOnGroup a B = invokeOnGroup b B

/-- Two group-check loops over the same group with pointwise agreeing check
lists, starting from states that agree on the group rows, end in states
that agree on the group rows. -/
theorem runGroupChecks_B_agree (rm : String) (B : List RowId) :
    ∀ (cs1 cs2 : List QCInput), List.Forall₂ (CheckAgree B) cs1 cs2 →
    ∀ (gm1 mask1 : RowId → Bool) (res1 : Results)
      (gm2 mask2 : RowId → Bool) (res2 : Results)
      (m1 : RowId → Bool) (r1 : Results) (m2 : RowId → Bool) (r2 : Results),
      (∀ r ∈ B, gm1 r = gm2 r ∧ mask1 r = mask2 r ∧ ∀ c, res1 r c = res2 r c) →
      runGroupChecks rm B cs1 gm1 mask1 res1 = .ok (m1, r1) →
      runGroupChecks rm B cs2 gm2 mask2 res2 = .ok (m2, r2) →
      ∀ r ∈ B, m1 r = m2 r ∧ ∀ c, r1 r c = r2 r c := by
  intro cs1 cs2 hrel
  induction hrel with
  | nil =>
    intro gm1 mask1 res1 gm2 mask2 res2 m1 r1 m2 r2 hag h1 h2
    rw [runGroupChecks] at h1 h2
    injection h1 with h1'
    injection h1' with e1 e2
    injection h2 with h2'
    injection h2' with e3 e4
    subst e1
    subst e2
    subst e3
    subst e4
    exact fun r hr => ⟨(hag r hr).2.1, (hag r hr).2.2⟩
  | @cons a b as bs hab htail ih =>
    intro gm1 mask1 res1 gm2 mask2 res2 m1 r1 m2 r2 hag h1 h2
    rw [runGroupChecks] at h1 h2
    have hanyeq : B.any gm1 = B.any gm2 :=
      any_congr_on B gm1 gm2 (fun r hr => (hag r hr).1)
    by_cases hany : B.any gm1 = false
    · rw [if_pos hany] at h1
      rw [if_pos (hanyeq ▸ hany)] at h2
      injection h1 with h1'
      injection h1' with e1 e2
      injection h2 with h2'
      injection h2' with e3 e4
      subst e1
      subst e2
      subst e3
      subst e4
      exact fun r hr => ⟨(hag r hr).2.1, (hag r hr).2.2⟩
    · rw [if_neg hany] at h1
      rw [if_neg (by rw [← hanyeq]; exact hany)] at h2
      split at h1
      next e hs1 => exact Except.noConfusion h1
      next g1' m1' r1' hs1 =>
        split at h2
        next e hs2 => exact Except.noConfusion h2
        next g2' m2' r2' hs2 =>
          have hstepag := runCheckStep_B_agree rm B a b hab.1 hab.2 gm1 mask1
            res1 gm2 mask2 res2 hag g1' m1' r1' g2' m2' r2' hs1 hs2
          exact ih g1' m1' r1' g2' m2' r2' m1 r1 m2 r2 hstepag h1 h2

/-- Two group loops over the same group list (each group either B itself or
disjoint from B) with pointwise agreeing check lists, starting from states
agreeing on B's rows, produce results that agree on B's rows. -/
theorem runGroupsLoop_B_agree (rm : String) (B : List RowId)
    (cs1 cs2 : List QCInput) (hrel : List.Forall₂ (CheckAgree B) cs1 cs2) :
    ∀ (gs : List (List RowId)),
      (∀ g ∈ gs, g = B ∨ (∀ r ∈ B, r ∉ g)) →
      ∀ (mask1 : RowId → Bool) (res1 : Results)
        (mask2 : RowId → Bool) (res2 : Results) (F1 F2 : Results),
      (∀ r ∈ B, mask1 r = mask2 r ∧ ∀ c, res1 r c = res2 r c) →
      runGroupsLoop rm cs1 gs mask1 res1 = .ok F1 →
      runGroupsLoop rm cs2 gs mask2 res2 = .ok F2 →
      ∀ r ∈ B, ∀ c, F1 r c = F2 r c := by
  intro gs
  induction gs with
  | nil =>
    intro hGs mask1 res1 mask2 res2 F1 F2 hag h1 h2
    rw [runGroupsLoop] at h1 h2
    injection h1 with e1
    injection h2 with e2
    subst e1
    subst e2
    exact fun r hr => (hag r hr).2
  | cons G gs ih =>
    intro hGs mask1 res1 mask2 res2 F1 F2 hag h1 h2
    rw [runGroupsLoop] at h1 h2
    split at h1
    next e hs1 => exact Except.noConfusion h1
    next mask1' res1' hs1 =>
      split at h2
      next e hs2 => exact Except.noConfusion h2
      next mask2' res2' hs2 =>
        rcases hGs G (List.mem_cons_self _ _) with rfl | hdisjB
        · have hag' := runGroupChecks_B_agree rm G cs1 cs2 hrel mask1 mask1
            res1 mask2 mask2 res2 mask1' res1' mask2' res2'
            (fun r hr => ⟨(hag r hr).1, (hag r hr).1, (hag r hr).2⟩) hs1 hs2
          exact ih (fun g hg => hGs g (List.mem_cons_of_mem _ hg)) mask1' res1'
            mask2' res2' F1 F2
            (fun r hr => ⟨(hag' r hr).1, (hag' r hr).2⟩) h1 h2
        · have hout1 := runGroupChecks_outside rm G cs1 mask1 mask1 res1 mask1'
            res1' hs1
          have hout2 := runGroupChecks_outside rm G cs2 mask2 mask2 res2 mask2'
            res2' hs2
          refine ih (fun g hg => hGs g (List.mem_cons_of_mem _ hg)) mask1' res1'
            mask2' res2' F1 F2 ?_ h1 h2
          intro r hr
          have hcF : G.contains r = false := by simpa using hdisjB r hr
          obtain ⟨hres1, hmask1⟩ := hout1 r hcF
          obtain ⟨hres2, hmask2⟩ := hout2 r hcF
          exact ⟨hmask1.trans ((hag r hr).1.trans hmask2.symm),
            fun c => (hres1 c).trans (((hag r hr).2 c).trans (hres2 c).symm)⟩

/-- An element of a pairwise-related list relates to every other element,
in one direction or the other. -/
theorem pairwise_mem_cases {α : Type} {D : α → α → Prop} :
    ∀ (l : List α), l.Pairwise D → ∀ B, B ∈ l → ∀ g, g ∈ l →
      g = B ∨ D B g ∨ D g B := by
  intro l
  induction l with
  | nil =>
    intro _ B hB
    cases hB
  | cons a as ih =>
    intro hl B hB g hg
    obtain ⟨hhead, htail⟩ := List.pairwise_cons.mp hl
    rcases List.mem_cons.mp hB with hBa | hB'
    · subst hBa
      rcases List.mem_cons.mp hg with hga | hg'
      · exact .inl hga
      · exact .inr (.inl (hhead g hg'))
    · rcases List.mem_cons.mp hg with hga | hg'
      · subst hga
        exact .inr (.inr (hhead B hB'))
      · exact ih htail B hB' g hg'

/-- Two engine runs over the same pairwise disjoint groups whose check
lists agree on names and on their invocations over a group B produce the
same flags at all of B's rows. -/
theorem runQcEngine_B_agree (rm : String) (B : List RowId)
    (idx1 idx2 : List RowId) (cs1 cs2 : List QCInput)
    (groups : List (List RowId)) (M1 M2 : FlagMatrix)
    (hrel : List.Forall₂ (CheckAgree B) cs1 cs2)
    (hB : B ∈ groups)
    (hdisj : groups.Pairwise (fun a b => ∀ r, r ∈ a → r ∉ b))
    (h1 : runQcEngine idx1 cs1 groups rm = .ok M1)
    (h2 : runQcEngine idx2 cs2 groups rm = .ok M2) :
    ∀ r ∈ B, ∀ c, M1.entry r c = M2.entry r c := by
  obtain ⟨-, -, hloop1⟩ := runQcEngine_ok_inv _ _ _ _ _ h1
  obtain ⟨-, -, hloop2⟩ := runQcEngine_ok_inv _ _ _ _ _ h2
  refine runGroupsLoop_B_agree rm B cs1 cs2 hrel groups ?_ (fun _ => true)
    (fun _ _ => untested) (fun _ => true) (fun _ _ => untested)
    M1.entry M2.entry (fun r hr => ⟨rfl, fun c => rfl⟩) hloop1 hloop2
  intro g hg
  rcases pairwise_mem_cases groups hdisj B hB g hg with rfl | hD | hD
  · exact .inl rfl
  · exact .inr (fun r hr => hD r hr)
  · exact .inr (fun r hr hrg => hD r hrg hr)

/-- The argument relation produced by resolving the same names mapping on
two tables that agree on B's rows: equal parameter names and equal
materializations over B. -/
def ArgAgree (B : List RowId) (a b : String × PyVal) : Prop :=
  a.1 = b.1 ∧ materialize B a.2 = materialize B b.2

/-- Keyword dictionaries related over B materialize to equal dictionaries
for a call over B. -/
theorem callKw_eq_of_relate (B : List RowId) :
    ∀ (kw1 kw2 : List (String × PyVal)), List.Forall₂ (ArgAgree B) kw1 kw2 →
      callKw B kw1 = callKw B kw2 := by
  intro kw1 kw2 hrel
  induction hrel with
  | nil => rfl
  | @cons a b as bs hab htail ih =>
    rw [callKw, callKw, List.map_cons, List.map_cons]
    rw [callKw] at ih
    rw [ih]
    have : (a.1, materialize B a.2) = (b.1, materialize B b.2) := by
      rw [hab.1, hab.2]
    rw [this, callKw]

/-- Resolving the same names mapping against two tables with the same
columns that agree on B's rows yields B-related request dictionaries. -/
theorem getRequestsLoop_relate (f : PyFunc) (t1 t2 : Table) (B : List RowId)
    (hcols : t1.cols = t2.cols)
    (hvals : ∀ c r, r ∈ B → t1.val c r = t2.val c r) :
    ∀ (nl : List (String × String)) (reqs1 reqs2 : List (String × PyVal)),
      getRequestsLoop f (.frame t1) nl = .ok reqs1 →
      getRequestsLoop f (.frame t2) nl = .ok reqs2 →
      List.Forall₂ (ArgAgree B) reqs1 reqs2 := by
  intro nl
  induction nl with
  | nil =>
    intro reqs1 reqs2 h1 h2
    rw [getRequestsLoop] at h1 h2
    injection h1 with e1
    injection h2 with e2
    subst e1
    subst e2
    exact List.Forall₂.nil
  | cons pc rest ih =>
    obtain ⟨p, c⟩ := pc
    intro reqs1 reqs2 h1 h2
    rw [getRequestsLoop] at h1 h2
    by_cases hp : isFuncParam f p = false
    · rw [if_pos hp] at h1
      exact Except.noConfusion h1
    · rw [if_neg hp] at h1
      rw [if_neg hp] at h2
      by_cases hc1 : isInData c (.frame t1) = false
      · rw [if_pos hc1] at h1
        exact Except.noConfusion h1
      · rw [if_neg hc1] at h1
        have hc2 : ¬ isInData c (.frame t2) = false := by
          intro hcon
          exact hc1 (by simpa [isInData, hcols] using hcon)
        rw [if_neg hc2] at h2
        cases hr1 : getRequestsLoop f (.frame t1) rest with
        | error e =>
          rw [hr1] at h1
          exact Except.noConfusion h1
        | ok rs1 =>
          rw [hr1] at h1
          cases hr2 : getRequestsLoop f (.frame t2) rest with
          | error e =>
            rw [hr2] at h2
            exact Except.noConfusion h2
          | ok rs2 =>
            rw [hr2] at h2
            injection h1 with e1
            injection h2 with e2
            subst e1
            subst e2
            refine List.Forall₂.cons ⟨rfl, ?_⟩ (ih rs1 rs2 hr1 hr2)
            show materialize B (getItem (.frame t1) c) =
              materialize B (getItem (.frame t2) c)
            rw [getItem, getItem, materialize, materialize]
            exact congrArg PyVal.list (List.map_congr_left (fun r hr => hvals c r hr))

/-- Preparing the same check configuration with the same preprocessed map
against two tables with the same columns that agree on B's rows yields
check inputs with equal names and equal invocations over B. -/
theorem prepareQcFunctions_relate (registry : List (String × PyFunc))
    (preprocessed : List (String × PyVal)) (t1 t2 : Table) (B : List RowId)
    (hcols : t1.cols = t2.cols)
    (hvals : ∀ c r, r ∈ B → t1.val c r = t2.val c r) :
    ∀ (l : List (String × Descriptor)) (qs1 qs2 : List QCInput),
      prepareQcFunctions registry preprocessed (.frame t1) l = .ok qs1 →
      prepareQcFunctions registry preprocessed (.frame t2) l = .ok qs2 →
      List.Forall₂ (CheckAgree B) qs1 qs2 := by
  intro l
  induction l with
  | nil =>
    intro qs1 qs2 h1 h2
    rw [prepareQcFunctions] at h1 h2
    injection h1 with e1
    injection h2 with e2
    subst e1
    subst e2
    exact List.Forall₂.nil
  | cons nd rest ih =>
    obtain ⟨nm, desc⟩ := nd
    intro qs1 qs2 h1 h2
    obtain ⟨fn1, f1, reqs1, kw1, qs1', hfn1, hgf1, hreq1, hkw1, hrest1, hshape1⟩ :=
      prepareQcFunctions_cons_inv _ _ _ _ _ _ _ h1
    obtain ⟨fn2, f2, reqs2, kw2, qs2', hfn2, hgf2, hreq2, hkw2, hrest2, hshape2⟩ :=
      prepareQcFunctions_cons_inv _ _ _ _ _ _ _ h2
    rw [hfn1] at hfn2
    injection hfn2 with hfneq
    subst hfneq
    rw [hgf1] at hgf2
    injection hgf2 with hfeq
    subst hfeq
    rw [hkw1] at hkw2
    injection hkw2 with hkweq
    subst hkweq
    subst hshape1
    subst hshape2
    have hreqrel : List.Forall₂ (ArgAgree B) reqs1 reqs2 := by
      cases hnames : desc.names with
      | none =>
        rw [hnames] at hreq1 hreq2
        rw [getRequestsFromParams] at hreq1 hreq2
        injection hreq1 with e1
        injection hreq2 with e2
        subst e1
        subst e2
        exact List.Forall₂.nil
      | some nl =>
        rw [hnames] at hreq1 hreq2
        exact getRequestsLoop_relate f1 t1 t2 B hcols hvals nl reqs1 reqs2
          hreq1 hreq2
    refine List.Forall₂.cons ⟨rfl, ?_⟩ (ih qs1' qs2' hrest1 hrest2)
    show invokeOnGroup ⟨nm, f1, reqs1, kw1⟩ B = invokeOnGroup ⟨nm, f1, reqs2, kw1⟩ B
    rw [invokeOnGroup, invokeOnGroup]
    rw [callKw_eq_of_relate B reqs1 reqs2 hreqrel]

/-- C5 as amended: with an empty preprocessing configuration, two tables
with the same columns that agree on all of group B's rows and produce the
same grouping yield identical flags on B's rows — changing the data of the
other groups' rows never changes B's results. (With preprocessing, a
derived variable computed from the whole table can leak other groups' data
into B's arguments; see the counterexample.) -/
theorem no_cross_group_leakage_amended
    (registry : List (String × PyFunc)) (t1 t2 : Table) (gb : GroupBy)
    (qcDict : Option (List (String × Descriptor))) (rm : String)
    (B : List RowId) (groups : List (List RowId)) (res1 res2 : QCResult)
    (hcols : t1.cols = t2.cols)
    (hBvals : ∀ c r, r ∈ B → t1.val c r = t2.val c r)
    (hg1 : groupsOf t1 gb = .ok groups)
    (hg2 : groupsOf t2 gb = .ok groups)
    (hB : B ∈ groups)
    (hdisj : groups.Pairwise (fun a b => ∀ r, r ∈ a → r ∉ b))
    (h1 : doMultipleCheck registry (.frame t1) gb qcDict none rm = .ok res1)
    (h2 : doMultipleCheck registry (.frame t2) gb qcDict none rm = .ok res2) :
    ∃ m1 m2, res1 = .frame m1 ∧ res2 = .frame m2 ∧
      ∀ r ∈ B, ∀ c, m1.entry r c = m2.entry r c := by
  obtain ⟨pre1, qcIn1, groups1, m1, hpre1, hqc1, hgg1, hm1, hcase1⟩ :=
    doMultipleCheck_ok_inv _ _ _ _ _ _ _ h1
  obtain ⟨pre2, qcIn2, groups2, m2, hpre2, hqc2, hgg2, hm2, hcase2⟩ :=
    doMultipleCheck_ok_inv _ _ _ _ _ _ _ h2
  have hpre1e : (Except.ok ([] : List (String × PyVal)) :
      Except QCError (List (String × PyVal))) = Except.ok pre1 := hpre1
  have hpre2e : (Except.ok ([] : List (String × PyVal)) :
      Except QCError (List (String × PyVal))) = Except.ok pre2 := hpre2
  injection hpre1e with e1
  injection hpre2e with e2
  subst e1
  subst e2
  have hqc1' : prepareQcFunctions registry [] (.frame t1) (qcDict.getD []) =
      .ok qcIn1 := hqc1
  have hqc2' : prepareQcFunctions registry [] (.frame t2) (qcDict.getD []) =
      .ok qcIn2 := hqc2
  have hgg1' : groupsOf t1 gb = .ok groups1 := hgg1
  have hgg2' : groupsOf t2 gb = .ok groups2 := hgg2
  rw [hg1] at hgg1'
  rw [hg2] at hgg2'
  injection hgg1' with eg1
  injection hgg2' with eg2
  subst eg1
  subst eg2
  rcases hcase1 with ⟨t1', ht1', hres1⟩ | ⟨n, idx, v, r0, tl, hd, -, -⟩
  · rcases hcase2 with ⟨t2', ht2', hres2⟩ | ⟨n, idx, v, r0, tl, hd, -, -⟩
    · have hrelate := prepareQcFunctions_relate registry [] t1 t2 B hcols
        hBvals (qcDict.getD []) qcIn1 qcIn2 hqc1' hqc2'
      have hm1' : runQcEngine t1.index qcIn1 groups rm = .ok m1 := hm1
      have hm2' : runQcEngine t2.index qcIn2 groups rm = .ok m2 := hm2
      exact ⟨m1, m2, hres1, hres2,
        runQcEngine_B_agree rm B t1.index t2.index qcIn1 qcIn2 groups m1 m2
          hrelate hB hdisj hm1' hm2'⟩
    · exact PData.noConfusion hd
  · exact PData.noConfusion hd

/-- C5 counterexample: two tables identical on group B's row (row 1, both
columns) and on group memberships, differing only in column v at row 0 (a
row of group A), run with a table-wide preprocessed sum feeding the check:
group B's flag flips from passed to failed, so changing group A's data
changed group B's result. -/
theorem cross_group_leakage_counterexample :
    leakT1.index = leakT2.index ∧
    leakT1.cols = leakT2.cols ∧
    leakT1.val "v" 1 = leakT2.val "v" 1 ∧
    leakT1.val "g" 1 = leakT2.val "g" 1 ∧
    leakT1.val "g" 0 = leakT2.val "g" 0 ∧
    ¬ leakT1.val "v" 0 = leakT2.val "v" 0 ∧
    groupsOf leakT1 (.byCols ["g"]) = .ok [[0], [1]] ∧
    groupsOf leakT2 (.byCols ["g"]) = .ok [[0], [1]] ∧
    resFlag (doMultipleCheck leakReg (.frame leakT1) (.byCols ["g"])
      (some leakQc) (some leakPrep) "all") 1 "c" = passed ∧
    resFlag (doMultipleCheck leakReg (.frame leakT2) (.byCols ["g"])
      (some leakQc) (some leakPrep) "all") 1 "c" = failed := by
  refine ⟨rfl, rfl, rfl, rfl, rfl, by decide, rfl, rfl, rfl, rfl⟩

/-- Witness for the amended C5 at the concrete leak-free runs. -/
theorem no_cross_group_leakage_amended_witness :
    ∃ m1 m2, noLeakRes1 = .frame m1 ∧ noLeakRes2 = .frame m2 ∧
      ∀ r ∈ [(1 : RowId)], ∀ c, m1.entry r c = m2.entry r c := by
  refine no_cross_group_leakage_amended leakReg leakT1 leakT2 (.byCols ["g"])
    (some noLeakQc) "all" [1] [[0], [1]] noLeakRes1 noLeakRes2 rfl ?_ rfl rfl
    (by simp) ?_ (by rfl) (by rfl)
  · intro c r hr
    have : r = 1 := by simpa using hr
    subst this
    rfl
  · refine List.Pairwise.cons ?_ (List.pairwise_singleton _ _)
    intro b hb r hr
    simp at hb hr
    subst hb
    subst hr
    simp

end MarineQC
